import Mathlib

/-
  Verification development for the vicon2gt batch estimator
  (src/src/solver/ViconGraphSolver.cpp).

  The solver's control flow is shallowly embedded below.  Times and vector
  entries are rationals.  The external collaborators that the spec excludes
  (Propagator, Interpolator, the GTSAM Levenberg-Marquardt optimizer) and the
  floating-point-only computations (NaN / inverse-NaN tests on covariance
  matrices, Eigen vector norms, the quaternion utilities used to seed a state)
  are modelled as oracle fields of an `Env` record; the covariance payloads
  themselves are opaque tags.  Everything that the C++ file itself computes
  (pruning, map construction, factor construction, the relinearization loop,
  the exit paths, the exported state rows) is translated directly.

  gtsam calls that throw on failure (Values::at on a missing or mistyped key,
  std::vector::at out of range) are modelled as `Except` errors, as are the
  two std::exit calls and the two assert statements in build_problem.
  gtsam's Values::insert throws on a duplicate key; the embedding models
  insert as an unconditional association-list extension, which coincides with
  the source behaviour on runs whose timestamp list has no duplicates (the
  run-level theorems below carry a `Nodup` hypothesis for exactly this
  reason: values are cleared before round 0 and X keys are inserted at most
  once per distinct timestamp).
-/

namespace Vicon2gt

/-- A 3-vector with rational entries (Eigen::Matrix double 3 1). -/
structure Vec3 where
  x : ℚ
  y : ℚ
  z : ℚ
deriving DecidableEq, Repr

/-- A 4-vector (JPL quaternion storage: x, y, z, then scalar w last,
so that q()(3,0) is the scalar component as in the source). -/
structure Vec4 where
  x : ℚ
  y : ℚ
  z : ℚ
  w : ℚ
deriving DecidableEq, Repr

/-- A 3x3 matrix, row major (init_R_BtoI). -/
structure Mat3 where
  a11 : ℚ
  a12 : ℚ
  a13 : ℚ
  a21 : ℚ
  a22 : ℚ
  a23 : ℚ
  a31 : ℚ
  a32 : ℚ
  a33 : ℚ
deriving DecidableEq, Repr

/-- Opaque payload standing for the 6x6 pose covariance R_vicon returned by
the Interpolator; whether its floating-point norm or inverse is NaN is
decided by the `Env.covBad` oracle. -/
structure Cov6 where
  tag : ℚ
deriving DecidableEq, Repr

/-- Opaque payload standing for the preintegration covariance P_meas;
its NaN test is the `Env.preintCovBad` oracle. -/
structure CovM where
  tag : ℚ
deriving DecidableEq, Repr

/-- The triple written by Interpolator::get_pose through its output
parameters: orientation q_VtoB, position p_BinV, covariance R_vicon. -/
structure PoseMeas where
  q_VtoB : Vec4
  p_BinV : Vec3
  R_vicon : Cov6
deriving DecidableEq, Repr

/-- The preintegrated inertial measurement (CpiV1) fields consumed by
build_problem: exact duration DT, covariance P_meas, the accumulated deltas,
linearization biases, and the bias Jacobian blocks (J_q, J_b, J_a, H_b, H_a)
collapsed into one opaque tag that is carried into the factor unchanged. -/
structure Preint where
  DT : ℚ
  P_meas : CovM
  alpha_tau : Vec3
  beta_tau : Vec3
  q_k2tau : Vec4
  b_a_lin : Vec3
  b_w_lin : Vec3
  jacs : ℚ
deriving DecidableEq, Repr

/-- A navigation state (JPLNavState): orientation, gyro bias, velocity,
accel bias, position. -/
structure JPLNavState where
  q : Vec4
  bg : Vec3
  v : Vec3
  ba : Vec3
  p : Vec3
deriving DecidableEq, Repr

/-- gtsam symbol keys as used by the source: X(i) navigation states,
C(0)/C(1) extrinsic calibration, G(0) gravity, T(0) time offset. -/
inductive Key where
  | X (i : ℕ)
  | C (i : ℕ)
  | G (i : ℕ)
  | T (i : ℕ)
deriving DecidableEq, Repr

/-- A value stored in the gtsam Values container. -/
inductive Val where
  | rot (R : Mat3)
  | vec3 (v : Vec3)
  | vec1 (x : ℚ)
  | nav (s : JPLNavState)
deriving DecidableEq, Repr

/-- gtsam::Values, modelled as an association list; lookup returns the most
recent binding. -/
abbrev Values := List (Key × Val)

/-- Lookup a key (gtsam Values::at / find). -/
def lookupV : Values → Key → Option Val
  | [], _ => none
  | (k', v) :: rest, k => if k' = k then some v else lookupV rest k

/-- Values::insert (callers only insert fresh keys on Nodup runs). -/
def insertV (vs : Values) (k : Key) (v : Val) : Values :=
  (k, v) :: vs

/-- Values::erase (removes every binding of the key). -/
def eraseV : Values → Key → Values
  | [], _ => []
  | (k', v) :: rest, k =>
    if k' = k then eraseV rest k else (k', v) :: eraseV rest k

/-- Values::exists (values.find(k) != values.end()). -/
def containsV (vs : Values) (k : Key) : Bool :=
  (lookupV vs k).isSome

/-- Values::at of a Vector1 (throws unless the key holds a vec1). -/
def atVec1 (vs : Values) (k : Key) : Option ℚ :=
  match lookupV vs k with
  | some (Val.vec1 x) => some x
  | _ => none

/-- Values::at of a Vector3. -/
def atVec3 (vs : Values) (k : Key) : Option Vec3 :=
  match lookupV vs k with
  | some (Val.vec3 v) => some v
  | _ => none

/-- Values::at of a Rot3. -/
def atRot (vs : Values) (k : Key) : Option Mat3 :=
  match lookupV vs k with
  | some (Val.rot R) => some R
  | _ => none

/-- Values::at of a JPLNavState. -/
def atNav (vs : Values) (k : Key) : Option JPLNavState :=
  match lookupV vs k with
  | some (Val.nav s) => some s
  | _ => none

/-- The factors the Graph Builder adds to the gtsam NonlinearFactorGraph. -/
inductive Factor where
  | priorToff (k : Key) (mean : ℚ) (sigma : ℚ)
  | magPrior (k : Key) (sigma : ℚ) (mag : ℚ)
  | viconPose (xk ck0 ck1 : Key) (R : Cov6) (q : Vec4) (p : Vec3)
  | viconPoseToff (xk ck0 ck1 tk : Key) (timestamp : ℚ)
  | imuCPI (xk0 xk1 gk : Key) (pre : Preint)
deriving DecidableEq, Repr

/-- Configuration read once at construction (the nh.param defaults of the
source are the defaults noted in the spec). -/
structure Config where
  init_grav_inV : Vec3
  init_R_BtoI : Mat3
  init_p_BinI : Vec3
  init_toff_imu_to_vicon : ℚ
  enforce_grav_mag : Bool
  estimate_toff_vicon_to_imu : Bool
  num_loop_relin : ℤ
deriving Repr

/-- External collaborators and floating-point oracles.
`hasBoundingImu` and `propagate` are the Propagator interface (propagate
returns none when it reports failure).  `getPose` is the Interpolator.
`covBad` models `isnan(R.norm()) || isnan(R.inverse().norm())` on a pose
covariance; `preintCovBad` the same test on P_meas.  `optimize` is the
Levenberg-Marquardt solve.  `rosOk` is the cooperative stop signal checked
once per timestamp of a build pass.  `initQP` models the quaternion-utility
composition (quat_multiply, rot_2_quat, quat_2_Rot, Inv - floating point
code outside this file) producing (q_VtoI, p_IinV) from the configured
extrinsics and an interpolated pose; `norm3` models Eigen's .norm(). -/
structure Env where
  hasBoundingImu : ℚ → Bool
  getPose : ℚ → Option PoseMeas
  covBad : Cov6 → Bool
  propagate : ℚ → ℚ → Vec3 → Vec3 → Option Preint
  preintCovBad : CovM → Bool
  optimize : List Factor → Values → Values
  rosOk : ℕ → Bool
  initQP : Mat3 → Vec3 → Vec4 → Vec3 → Vec4 × Vec3
  norm3 : Vec3 → ℚ

/-- Abnormal-termination paths of build_and_solve / build_problem:
the two std::exit(EXIT_FAILURE) calls, the two asserts, gtsam Values::at
throwing (missing or mistyped key), and std::vector::at out of range in the
final debug print. -/
inductive Err where
  | exitEmptyInput
  | exitAllOutOfRange
  | assertHasImu
  | assertDT
  | valuesAtErr
  | vecAtOutOfRange
deriving DecidableEq, Repr

/-- map_states: std::map from timestamp to its insertion index i
(first insertion wins for a duplicate key, matching std::map::insert). -/
def mapStates : List ℚ → ℚ → ℕ
  | [], _ => 0
  | t' :: rest, t => if t' = t then 0 else mapStates rest t + 1

/-- The camera timestamps surviving the bounding-IMU pruning at the top of
build_and_solve. -/
def boundedTs (env : Env) (ts0 : List ℚ) : List ℚ :=
  ts0.filter (fun t => env.hasBoundingImu t)

/-- timestamp_corrected: reads T(0) from the value set when the time offset
is being estimated (Values::at, which throws if absent), otherwise uses the
configured fixed offset. -/
def currToff (cfg : Config) (values : Values) : Option ℚ :=
  if cfg.estimate_toff_vicon_to_imu then atVec1 values (Key.T 0)
  else some cfg.init_toff_imu_to_vicon

/-- The C++ out-parameter discipline of the three get_pose calls: a call
that succeeds overwrites the shared output variables, a failing call leaves
them unchanged. -/
def ovwr (prev next : Option PoseMeas) : Option PoseMeas :=
  match next with
  | some m => some m
  | none => prev

/-- The shared output variables after the three successive queries at
(tq - 1), (tq + 1) and tq. -/
def poseOut (r1 r2 r3 : Option PoseMeas) : Option PoseMeas :=
  ovwr (ovwr (ovwr none r1) r2) r3

/-- The per-timestamp vicon checks of build_problem: query the Interpolator
at (corrected - 1), (corrected + 1) and (corrected); if any query fails, or
the covariance left in the output variables fails the NaN / inverse test,
the timestamp is pruned (the source handles both failures identically:
erase the state value if present, erase the timestamp, continue). -/
def viconChecks (env : Env) (tq : ℚ) : Option PoseMeas :=
  if (env.getPose (tq - 1)).isNone || (env.getPose (tq + 1)).isNone
      || (env.getPose tq).isNone then none
  else
    match poseOut (env.getPose (tq - 1)) (env.getPose (tq + 1)) (env.getPose tq) with
    | none => none
    | some m => if env.covBad m.R_vicon then none else some m

/-- Whether a timestamp survives the vicon checks at time offset toff. -/
def keepB (env : Env) (toff : ℚ) (t : ℚ) : Bool :=
  (viconChecks env (t + toff)).isSome

/-- The initial navigation state inserted on round 0: orientation and
position composed from the interpolated pose and the configured extrinsics
via the quaternion utilities, zero biases and velocity. -/
def mkInitState (cfg : Config) (env : Env) (m : PoseMeas) : JPLNavState :=
  ⟨(env.initQP cfg.init_R_BtoI cfg.init_p_BinI m.q_VtoB m.p_BinV).1,
    ⟨0, 0, 0⟩, ⟨0, 0, 0⟩, ⟨0, 0, 0⟩,
    (env.initQP cfg.init_R_BtoI cfg.init_p_BinI m.q_VtoB m.p_BinV).2⟩

/-- The value-set update for a surviving timestamp: insert the initial
navigation state when initializing, otherwise leave the values unchanged. -/
def stepValues (cfg : Config) (env : Env) (mapS : ℚ → ℕ) (ins : Bool)
    (t : ℚ) (m : PoseMeas) (values : Values) : Values :=
  if ins then insertV values (Key.X (mapS t)) (Val.nav (mkInitState cfg env m))
  else values

/-- The pose factor added for a surviving timestamp: the time-offset variant
(which stores the raw timestamp and re-queries the Interpolator internally)
when estimating the offset, else the plain factor carrying the interpolated
measurement. -/
def poseFactor (cfg : Config) (mapS : ℚ → ℕ) (t : ℚ) (m : PoseMeas) : Factor :=
  if cfg.estimate_toff_vicon_to_imu then
    Factor.viconPoseToff (Key.X (mapS t)) (Key.C 0) (Key.C 1) (Key.T 0) t
  else
    Factor.viconPose (Key.X (mapS t)) (Key.C 0) (Key.C 1) m.R_vicon m.q_VtoB m.p_BinV

/-- The main loop of build_problem over the camera timestamps.
`doneRev` holds the already-processed surviving timestamps, most recent
first (so `doneRev = []` exactly when the iterator sits at begin(), and the
head of `doneRev` is *(it1-1)).  `n` counts loop iterations for the
ros::ok() check; a raised stop signal breaks out, leaving the remaining
timestamps in place.  A pruned timestamp has its state value erased (if
present) and is removed from the list.  For a surviving non-first timestamp
the Propagator is queried between the previous surviving timestamp and the
current one using the previous state's bias estimate; assert failures and
Values::at failures are fatal. -/
def buildLoop (cfg : Config) (env : Env) (mapS : ℚ → ℕ) (ins : Bool) :
    List ℚ → List ℚ → Values → List Factor → ℕ →
    Except Err (List ℚ × Values × List Factor)
  | doneRev, [], values, graph, _ => .ok (doneRev.reverse, values, graph)
  | doneRev, t :: rest, values, graph, n =>
    if env.rosOk n = false then .ok (doneRev.reverse ++ t :: rest, values, graph)
    else
      match currToff cfg values with
      | none => .error .valuesAtErr
      | some toff =>
        match viconChecks env (t + toff) with
        | none =>
          buildLoop cfg env mapS ins doneRev rest
            (eraseV values (Key.X (mapS t))) graph (n + 1)
        | some m =>
          match doneRev with
          | [] =>
            buildLoop cfg env mapS ins [t] rest
              (stepValues cfg env mapS ins t m values)
              (graph ++ [poseFactor cfg mapS t m]) (n + 1)
          | t0 :: d' =>
            match atNav (stepValues cfg env mapS ins t m values) (Key.X (mapS t0)) with
            | none => .error .valuesAtErr
            | some st0 =>
              match env.propagate t0 t st0.bg st0.ba with
              | none => .error .assertHasImu
              | some pre =>
                if pre.DT ≠ t - t0 then .error .assertDT
                else
                  buildLoop cfg env mapS ins (t :: t0 :: d') rest
                    (stepValues cfg env mapS ins t m values)
                    ((graph ++ [poseFactor cfg mapS t m])
                      ++ [Factor.imuCPI (Key.X (mapS t0)) (Key.X (mapS t)) (Key.G 0) pre])
                    (n + 1)

/-- The calibration / gravity / time-offset seeding at the top of
build_problem (only on an initializing round). -/
def preValuesCG (cfg : Config) (ins : Bool) (values : Values) : Values :=
  if ins then
    insertV (insertV (insertV values (Key.C 0) (Val.rot cfg.init_R_BtoI))
      (Key.C 1) (Val.vec3 cfg.init_p_BinI)) (Key.G 0) (Val.vec3 cfg.init_grav_inV)
  else values

/-- The value set after the full build_problem preamble (including the
time-offset seeding when estimating the offset on an initializing round). -/
def preValues (cfg : Config) (ins : Bool) (values : Values) : Values :=
  if cfg.estimate_toff_vicon_to_imu && ins then
    insertV (preValuesCG cfg ins values) (Key.T 0) (Val.vec1 cfg.init_toff_imu_to_vicon)
  else preValuesCG cfg ins values

/-- The prior factors added before the timestamp loop: the time-offset prior
(mean = the current T(0) value, sigma 0.02 s) when estimating the offset,
and the gravity-magnitude prior (sigma 1e-10, magnitude = the norm of the
configured gravity) when enforcing the magnitude. -/
def preGraph (cfg : Config) (env : Env) (toffCur : ℚ) : List Factor :=
  (if cfg.estimate_toff_vicon_to_imu then
    [Factor.priorToff (Key.T 0) toffCur (1 / 50)]
  else [])
  ++ (if cfg.enforce_grav_mag then
    [Factor.magPrior (Key.G 0) (1 / 10000000000) (env.norm3 cfg.init_grav_inV)]
  else [])

/-- Result of one build pass. -/
structure BuildOut where
  ts : List ℚ
  values : Values
  graph : List Factor
deriving DecidableEq, Repr

/-- ViconGraphSolver::build_problem.  The graph is cleared, calibration /
gravity / time-offset variables are seeded when `ins` (initialize), the two
prior factors are added (the non-enforcing branch still reads G(0) for its
log line, which throws if the key is absent), then the timestamp loop runs. -/
def build_problem (cfg : Config) (env : Env) (mapS : ℚ → ℕ) (ins : Bool)
    (ts : List ℚ) (values : Values) : Except Err BuildOut :=
  match currToff cfg (preValues cfg ins values) with
  | none => .error .valuesAtErr
  | some toffCur =>
    if (!cfg.enforce_grav_mag) && (atVec3 (preValues cfg ins values) (Key.G 0)).isNone then
      .error .valuesAtErr
    else
      match buildLoop cfg env mapS ins [] ts (preValues cfg ins values)
          (preGraph cfg env toffCur) 0 with
      | .error e => .error e
      | .ok (ts', v', g') => .ok ⟨ts', v', g'⟩

/-- The record kept of one relinearization round. -/
structure Round where
  initFlag : Bool
  tsIn : List ℚ
  valuesIn : Values
  tsOut : List ℚ
  valuesBuilt : Values
  graph : List Factor
  valuesRes : Values
deriving DecidableEq, Repr

instance : Inhabited Round := ⟨⟨false, [], [], [], [], [], []⟩⟩

/-- The relinearization loop of build_and_solve: for each round, build the
problem (initializing variables exactly on round i = 0), optimize, adopt the
optimized values as the new current estimate; when estimating the time
offset, the debug print after each round reads T(0) from the adopted values
(Values::at, throwing if absent). -/
def solveLoop (cfg : Config) (env : Env) (mapS : ℚ → ℕ) :
    ℕ → ℕ → List ℚ → Values → Values → List Round →
    Except Err (List ℚ × Values × List Round)
  | 0, _, ts, _, vres, acc => .ok (ts, vres, acc.reverse)
  | r + 1, i, ts, values, _, acc =>
    match build_problem cfg env mapS (i == 0) ts values with
    | .error e => .error e
    | .ok b =>
      if cfg.estimate_toff_vicon_to_imu
          && (atVec1 (env.optimize b.graph b.values) (Key.T 0)).isNone then
        .error .valuesAtErr
      else
        solveLoop cfg env mapS r (i + 1) b.ts
          (env.optimize b.graph b.values) (env.optimize b.graph b.values)
          (⟨i == 0, ts, values, b.ts, b.values, b.graph,
            env.optimize b.graph b.values⟩ :: acc)

/-- The outcome of a successful build_and_solve: the timestamp list used to
build the index map, the surviving timestamps, the final optimized values,
and the per-round trace. -/
structure Result where
  mapTs : List ℚ
  ts : List ℚ
  valuesRes : Values
  rounds : List Round
deriving DecidableEq, Repr

instance : Inhabited Result := ⟨⟨[], [], [], []⟩⟩

/-- The debug block at the end of build_and_solve: timestamp_cameras.at(0)
throws if every timestamp was pruned during the build passes; the
Values::at reads of the first and last state, C(0), C(1), G(0) and (when
estimating) T(0) throw if any key is absent or mistyped. -/
def finalChecks (cfg : Config) (mapS : ℚ → ℕ) (ts1 : List ℚ) :
    List ℚ → Values → List Round → Except Err Result
  | [], _, _ => .error .vecAtOutOfRange
  | t0 :: rest', vres, rounds =>
    if (atNav vres (Key.X (mapS t0))).isNone
        || (atNav vres (Key.X (mapS ((t0 :: rest').getLastD t0)))).isNone
        || (atRot vres (Key.C 0)).isNone
        || (atVec3 vres (Key.C 1)).isNone
        || (atVec3 vres (Key.G 0)).isNone
        || (cfg.estimate_toff_vicon_to_imu && (atVec1 vres (Key.T 0)).isNone) then
      .error .valuesAtErr
    else .ok ⟨ts1, t0 :: rest', vres, rounds⟩

/-- ViconGraphSolver::build_and_solve: exit if the timestamp list is empty;
prune timestamps without bounding IMU readings and exit if none survive;
build the timestamp-to-index map; run the relinearization loop for
num_loop_relin + 1 rounds; finally run the debug reads. -/
def build_and_solve (cfg : Config) (env : Env) (ts0 : List ℚ) : Except Err Result :=
  if ts0 = [] then .error .exitEmptyInput
  else
    if boundedTs env ts0 = [] then .error .exitAllOutOfRange
    else
      match solveLoop cfg env (mapStates (boundedTs env ts0))
          (cfg.num_loop_relin + 1).toNat 0 (boundedTs env ts0) [] [] [] with
      | .error e => .error e
      | .ok (ts', vres, rounds) =>
        finalChecks cfg (mapStates (boundedTs env ts0)) (boundedTs env ts0)
          ts' vres rounds

/-- The result of a successful run (a junk default otherwise). -/
def resD (e : Except Err Result) : Result :=
  e.toOption.getD ⟨[], [], [], []⟩

/-- One line of the exported state table, in column order: integer
nanosecond timestamp, position, scalar-first quaternion, velocity, gyro
bias, accel bias. -/
structure StateRow where
  tns : ℤ
  p : Vec3
  qw : ℚ
  qx : ℚ
  qy : ℚ
  qz : ℚ
  v : Vec3
  bg : Vec3
  ba : Vec3
deriving DecidableEq, Repr

/-- The row written for a timestamp from its optimized state:
std::floor(1e9 * t), p, q(3) q(0) q(1) q(2) (scalar first), v, bg, ba. -/
def rowOf (t : ℚ) (s : JPLNavState) : StateRow :=
  ⟨Rat.floor (1000000000 * t), s.p, s.q.w, s.q.x, s.q.y, s.q.z, s.v, s.bg, s.ba⟩

/-- The state-table body written by write_to_file: one row per surviving
timestamp, in list order, each read from the final optimized values
(Values::at throws if a state is missing). -/
def write_rows (mapS : ℚ → ℕ) (values : Values) :
    List ℚ → Except Err (List StateRow)
  | [] => .ok []
  | t :: rest =>
    match atNav values (Key.X (mapS t)) with
    | none => .error .valuesAtErr
    | some s =>
      match write_rows mapS values rest with
      | .error e => .error e
      | .ok rs => .ok (rowOf t s :: rs)

/-- The default state used to express rows of a successful export. -/
def navD (values : Values) (k : Key) : JPLNavState :=
  (atNav values k).getD ⟨⟨0, 0, 0, 1⟩, ⟨0, 0, 0⟩, ⟨0, 0, 0⟩, ⟨0, 0, 0⟩, ⟨0, 0, 0⟩⟩

/-- The Propagator contract of the spec: propagation between bounded
timestamps succeeds and the returned duration is exactly t1 - t0. -/
def PropContract (env : Env) : Prop :=
  ∀ t0 t1 bg ba, ∃ p, env.propagate t0 t1 bg ba = some p ∧ p.DT = t1 - t0

/-- The constructor tag of a stored value (0 none, 1 rot, 2 vec3, 3 vec1,
4 nav). -/
def valTag : Option Val → ℕ
  | none => 0
  | some (Val.rot _) => 1
  | some (Val.vec3 _) => 2
  | some (Val.vec1 _) => 3
  | some (Val.nav _) => 4

/-- The optimizer contract: gtsam's optimize returns values for exactly the
input keys with their input types. -/
def OptTagContract (env : Env) : Prop :=
  ∀ g v k, valTag (lookupV (env.optimize g v) k) = valTag (lookupV v k)

/-- The run invariant threaded across rounds: every current timestamp has a
navigation state, and the calibration, gravity and (when estimating)
time-offset keys hold values of the right type. -/
def RInv (cfg : Config) (mapS : ℚ → ℕ) (values : Values) (ts : List ℚ) : Prop :=
  (cfg.estimate_toff_vicon_to_imu = true → (atVec1 values (Key.T 0)).isSome = true)
  ∧ (atRot values (Key.C 0)).isSome = true
  ∧ (atVec3 values (Key.C 1)).isSome = true
  ∧ (atVec3 values (Key.G 0)).isSome = true
  ∧ ∀ t ∈ ts, (atNav values (Key.X (mapS t))).isSome = true

/-- The per-round trace discipline of the relinearization loop: round j of
the list was built from the previous round's adopted optimum (or the
initial state for the first round), with the initialize flag set exactly
when the global round counter is zero, and its optimized values are what
the next round starts from. -/
def RoundsSpec (cfg : Config) (env : Env) (mapS : ℚ → ℕ) :
    ℕ → List ℚ → Values → List Round → Prop
  | _, _, _, [] => True
  | i, ts, values, rd :: rds =>
    rd.initFlag = (i == 0)
    ∧ rd.tsIn = ts
    ∧ rd.valuesIn = values
    ∧ build_problem cfg env mapS rd.initFlag ts values = .ok ⟨rd.tsOut, rd.valuesBuilt, rd.graph⟩
    ∧ rd.valuesRes = env.optimize rd.graph rd.valuesBuilt
    ∧ RoundsSpec cfg env mapS (i + 1) rd.tsOut rd.valuesRes rds

/-- The navigation-state keys a factor couples. -/
def stateKeysOf : Factor → List Key
  | Factor.viconPose xk _ _ _ _ _ => [xk]
  | Factor.viconPoseToff xk _ _ _ _ => [xk]
  | Factor.imuCPI xk0 xk1 _ _ => [xk0, xk1]
  | _ => []

/-- Whether a factor is the time-offset prior. -/
def isToffPrior : Factor → Bool
  | Factor.priorToff _ _ _ => true
  | _ => false

/-! Concrete fixtures used to instantiate the theorems below on explicit
inputs. -/

/-- The zero 3-vector. -/
def vzero : Vec3 := ⟨0, 0, 0⟩

/-- The identity quaternion (scalar last). -/
def qid : Vec4 := ⟨0, 0, 0, 1⟩

/-- The identity rotation matrix. -/
def m3id : Mat3 := ⟨1, 0, 0, 0, 1, 0, 0, 0, 1⟩

/-- A fixed well-behaved interpolated pose. -/
def poseW : PoseMeas := ⟨qid, vzero, ⟨0⟩⟩

/-- A preintegrated measurement honouring the propagator contract. -/
def preW (t0 t1 : ℚ) : Preint := ⟨t1 - t0, ⟨0⟩, vzero, vzero, qid, vzero, vzero, 0⟩

/-- A fully well-behaved environment: IMU bounds every timestamp, the
Interpolator always answers with a clean pose, propagation keeps its
contract, the optimizer returns its input, no stop signal. -/
def envW : Env where
  hasBoundingImu := fun _ => true
  getPose := fun _ => some poseW
  covBad := fun _ => false
  propagate := fun t0 t1 _ _ => some (preW t0 t1)
  preintCovBad := fun _ => false
  optimize := fun _ v => v
  rosOk := fun _ => true
  initQP := fun _ _ q p => (q, p)
  norm3 := fun _ => 98 / 10

/-- Default-like configuration: no gravity enforcement, no time-offset
estimation, zero extra relinearization rounds. -/
def cfgW : Config := ⟨⟨0, 0, 98 / 10⟩, m3id, vzero, 0, false, false, 0⟩

/-- Configuration estimating the time offset with one extra round. -/
def cfgT : Config := ⟨⟨0, 0, 98 / 10⟩, m3id, vzero, 0, false, true, 1⟩

/-- An environment whose optimizer moves the time-offset estimate to 42. -/
def envT : Env := { envW with optimize := fun _ v => insertV v (Key.T 0) (Val.vec1 42) }

/-- An environment whose Interpolator never has a pose (prunes everything
during the build pass). -/
def envP : Env := { envW with getPose := fun _ => none }

/-- An environment whose preintegration covariance always fails the NaN
test. -/
def envB : Env := { envW with preintCovBad := fun _ => true }

/-- An environment for which the timestamp 5 (and only it) has no bounding
inertial data. -/
def envC2 : Env := { envW with hasBoundingImu := fun t => decide (t ≠ 5) }

/-- An environment that returns a pose whose covariance is tagged with the
query time and flags exactly the covariance tagged 5 as NaN: the timestamp
5 (and only it) fails the vicon checks. -/
def envC : Env :=
  { envW with
    getPose := fun q => some ⟨qid, vzero, ⟨q⟩⟩
    covBad := fun c => decide (c.tag = 5) }

/-! Theorems.  First a toolkit of small lemmas about the value store and the
build loop, then the claim theorems. -/

theorem lookupV_insertV (vs : Values) (k k' : Key) (v : Val) :
    lookupV (insertV vs k v) k' = if k = k' then some v else lookupV vs k' := by
  simp [insertV, lookupV]

theorem lookupV_eraseV (vs : Values) (k k' : Key) :
    lookupV (eraseV vs k) k' = if k' = k then none else lookupV vs k' := by
  induction vs with
  | nil => simp [eraseV, lookupV]
  | cons p rest ih =>
    obtain ⟨k0, v0⟩ := p
    simp only [eraseV]
    by_cases hp : k0 = k
    · rw [if_pos hp, ih]
      by_cases hk : k' = k
      · rw [if_pos hk, if_pos hk]
      · rw [if_neg hk, if_neg hk, lookupV,
          if_neg (by rw [hp]; exact fun h => hk h.symm)]
    · rw [if_neg hp, lookupV]
      by_cases h0 : k0 = k'
      · rw [if_pos h0, if_neg (fun hk => hp (by rw [h0, hk])), lookupV, if_pos h0]
      · rw [if_neg h0, ih]
        by_cases hk : k' = k
        · rw [if_pos hk, if_pos hk]
        · rw [if_neg hk, if_neg hk, lookupV, if_neg h0]

theorem stepValues_false (cfg : Config) (env : Env) (mapS : ℚ → ℕ)
    (t : ℚ) (m : PoseMeas) (values : Values) :
    stepValues cfg env mapS false t m values = values := rfl

theorem stepValues_true (cfg : Config) (env : Env) (mapS : ℚ → ℕ)
    (t : ℚ) (m : PoseMeas) (values : Values) :
    stepValues cfg env mapS true t m values
      = insertV values (Key.X (mapS t)) (Val.nav (mkInitState cfg env m)) := rfl

theorem lookupV_stepValues (cfg : Config) (env : Env) (mapS : ℚ → ℕ) (ins : Bool)
    (t : ℚ) (m : PoseMeas) (values : Values) (k : Key) (h : k ≠ Key.X (mapS t)) :
    lookupV (stepValues cfg env mapS ins t m values) k = lookupV values k := by
  cases ins
  · rfl
  · rw [stepValues_true, lookupV_insertV, if_neg (fun hh => h hh.symm)]

theorem atNav_congr (vs' vs : Values) (k : Key)
    (h : lookupV vs' k = lookupV vs k) : atNav vs' k = atNav vs k := by
  simp [atNav, h]

theorem atVec1_congr (vs' vs : Values) (k : Key)
    (h : lookupV vs' k = lookupV vs k) : atVec1 vs' k = atVec1 vs k := by
  simp [atVec1, h]

theorem atVec3_congr (vs' vs : Values) (k : Key)
    (h : lookupV vs' k = lookupV vs k) : atVec3 vs' k = atVec3 vs k := by
  simp [atVec3, h]

theorem atRot_congr (vs' vs : Values) (k : Key)
    (h : lookupV vs' k = lookupV vs k) : atRot vs' k = atRot vs k := by
  simp [atRot, h]

theorem atNav_insert_nav (vs : Values) (k : Key) (s : JPLNavState) :
    atNav (insertV vs k (Val.nav s)) k = some s := by
  simp [atNav, insertV, lookupV]

theorem currToff_congr (cfg : Config) (vs' vs : Values)
    (h : atVec1 vs' (Key.T 0) = atVec1 vs (Key.T 0)) :
    currToff cfg vs' = currToff cfg vs := by
  unfold currToff
  split <;> simp [h]

theorem currToff_eraseX (cfg : Config) (vs : Values) (i : ℕ) :
    currToff cfg (eraseV vs (Key.X i)) = currToff cfg vs := by
  refine currToff_congr cfg _ _ (atVec1_congr _ _ _ ?_)
  rw [lookupV_eraseV, if_neg (by simp)]

theorem currToff_stepValues (cfg : Config) (env : Env) (mapS : ℚ → ℕ) (ins : Bool)
    (t : ℚ) (m : PoseMeas) (values : Values) :
    currToff cfg (stepValues cfg env mapS ins t m values) = currToff cfg values := by
  refine currToff_congr cfg _ _ (atVec1_congr _ _ _ ?_)
  exact lookupV_stepValues cfg env mapS ins t m values _ (by simp)

/-- During a build pass the timestamp list only shrinks: the surviving list
is a sublist of the processed-so-far list followed by the remaining list
(no hypotheses: this also covers a pass cut short by the stop signal). -/
theorem buildLoop_sublist (cfg : Config) (env : Env) (mapS : ℚ → ℕ) (ins : Bool) :
    ∀ (rest doneRev : List ℚ) (values : Values) (graph : List Factor) (n : ℕ)
      (ts' : List ℚ) (v' : Values) (g' : List Factor),
    buildLoop cfg env mapS ins doneRev rest values graph n = .ok (ts', v', g') →
    ts'.Sublist (doneRev.reverse ++ rest) := by
  intro rest
  induction rest with
  | nil =>
    intro doneRev values graph n ts' v' g' h
    simp only [buildLoop, Except.ok.injEq, Prod.mk.injEq] at h
    obtain ⟨h1, h2, h3⟩ := h
    simp [← h1]
  | cons t rest' ih =>
    intro doneRev values graph n ts' v' g' h
    simp only [buildLoop] at h
    by_cases hr : env.rosOk n = false
    · rw [if_pos hr] at h
      simp only [Except.ok.injEq, Prod.mk.injEq] at h
      obtain ⟨h1, h2, h3⟩ := h
      simp [← h1]
    · rw [if_neg hr] at h
      cases hc : currToff cfg values with
      | none => simp [hc] at h
      | some toff =>
        simp only [hc] at h
        cases hv : viconChecks env (t + toff) with
        | none =>
          simp only [hv] at h
          exact (ih _ _ _ _ _ _ _ h).trans
            (List.Sublist.append_left (List.sublist_cons_self t rest') _)
        | some m =>
          simp only [hv] at h
          cases doneRev with
          | nil =>
            have := ih _ _ _ _ _ _ _ h
            simpa using this
          | cons t0 d' =>
            cases ha : atNav (stepValues cfg env mapS ins t m values) (Key.X (mapS t0)) with
            | none => simp [ha] at h
            | some st0 =>
              simp only [ha] at h
              cases hp : env.propagate t0 t st0.bg st0.ba with
              | none => simp [hp] at h
              | some pre =>
                simp only [hp] at h
                by_cases hdt : pre.DT = t - t0
                · rw [if_neg (by simpa using hdt)] at h
                  have := ih _ _ _ _ _ _ _ h
                  simpa [List.append_assoc] using this
                · rw [if_pos (by simpa using hdt)] at h
                  simp at h

/-- Every factor a build pass appends to the graph is a pose or inertial
factor (never a time-offset prior) whose navigation-state keys all come
from the timestamps the pass walked over. -/
theorem buildLoop_graphAdd (cfg : Config) (env : Env) (mapS : ℚ → ℕ) (ins : Bool) :
    ∀ (rest doneRev : List ℚ) (values : Values) (graph : List Factor) (n : ℕ)
      (ts' : List ℚ) (v' : Values) (g' : List Factor),
    buildLoop cfg env mapS ins doneRev rest values graph n = .ok (ts', v', g') →
    ∃ gadd, g' = graph ++ gadd ∧ ∀ f ∈ gadd, isToffPrior f = false ∧
      ∀ k ∈ stateKeysOf f, ∃ t', (t' ∈ doneRev ∨ t' ∈ rest) ∧ k = Key.X (mapS t') := by
  intro rest
  induction rest with
  | nil =>
    intro doneRev values graph n ts' v' g' h
    simp only [buildLoop, Except.ok.injEq, Prod.mk.injEq] at h
    exact ⟨[], by simp [← h.2.2], by simp⟩
  | cons t rest' ih =>
    intro doneRev values graph n ts' v' g' h
    simp only [buildLoop] at h
    by_cases hr : env.rosOk n = false
    · rw [if_pos hr] at h
      simp only [Except.ok.injEq, Prod.mk.injEq] at h
      exact ⟨[], by simp [← h.2.2], by simp⟩
    · rw [if_neg hr] at h
      cases hc : currToff cfg values with
      | none => simp [hc] at h
      | some toff =>
        simp only [hc] at h
        cases hv : viconChecks env (t + toff) with
        | none =>
          simp only [hv] at h
          obtain ⟨gadd, hg, hcl⟩ := ih _ _ _ _ _ _ _ h
          refine ⟨gadd, hg, fun f hf => ⟨(hcl f hf).1, fun k hk => ?_⟩⟩
          obtain ⟨t', ht', hkt⟩ := (hcl f hf).2 k hk
          exact ⟨t', by tauto, hkt⟩
        | some m =>
          simp only [hv] at h
          have hpf_np : isToffPrior (poseFactor cfg mapS t m) = false := by
            unfold poseFactor; split <;> rfl
          have hpf_keys : ∀ k ∈ stateKeysOf (poseFactor cfg mapS t m),
              k = Key.X (mapS t) := by
            unfold poseFactor; split <;> simp [stateKeysOf]
          cases doneRev with
          | nil =>
            obtain ⟨gadd, hg, hcl⟩ := ih _ _ _ _ _ _ _ h
            refine ⟨poseFactor cfg mapS t m :: gadd, by simp [hg], ?_⟩
            intro f hf
            rcases List.mem_cons.mp hf with hfe | hf2
            · subst hfe
              exact ⟨hpf_np, fun k hk => ⟨t, by simp, hpf_keys k hk⟩⟩
            · refine ⟨(hcl f hf2).1, fun k hk => ?_⟩
              obtain ⟨t', ht', hkt⟩ := (hcl f hf2).2 k hk
              refine ⟨t', ?_, hkt⟩
              rcases ht' with h1 | h1
              · simp at h1; simp [h1]
              · exact Or.inr (List.mem_cons_of_mem _ h1)
          | cons t0 d' =>
            cases ha : atNav (stepValues cfg env mapS ins t m values) (Key.X (mapS t0)) with
            | none => simp [ha] at h
            | some st0 =>
              simp only [ha] at h
              cases hp : env.propagate t0 t st0.bg st0.ba with
              | none => simp [hp] at h
              | some pre =>
                simp only [hp] at h
                by_cases hdt : pre.DT = t - t0
                · rw [if_neg (by simpa using hdt)] at h
                  obtain ⟨gadd, hg, hcl⟩ := ih _ _ _ _ _ _ _ h
                  refine ⟨poseFactor cfg mapS t m
                      :: Factor.imuCPI (Key.X (mapS t0)) (Key.X (mapS t)) (Key.G 0) pre
                      :: gadd, by simp [hg], ?_⟩
                  intro f hf
                  rcases List.mem_cons.mp hf with hfe | hf2
                  · subst hfe
                    exact ⟨hpf_np, fun k hk => ⟨t, by simp, hpf_keys k hk⟩⟩
                  · rcases List.mem_cons.mp hf2 with hfe | hf3
                    · subst hfe
                      refine ⟨rfl, fun k hk => ?_⟩
                      simp only [stateKeysOf, List.mem_cons, List.mem_singleton,
                        List.not_mem_nil, or_false] at hk
                      rcases hk with hk | hk
                      · exact ⟨t0, by simp, by simp [hk]⟩
                      · exact ⟨t, by simp, by simp [hk]⟩
                    · refine ⟨(hcl f hf3).1, fun k hk => ?_⟩
                      obtain ⟨t', ht', hkt⟩ := (hcl f hf3).2 k hk
                      refine ⟨t', ?_, hkt⟩
                      rcases ht' with h1 | h1
                      · rcases List.mem_cons.mp h1 with h2 | h2
                        · simp [h2]
                        · exact Or.inl h2
                      · exact Or.inr (List.mem_cons_of_mem _ h1)
                · rw [if_pos (by simpa using hdt)] at h
                  simp at h

/-- Under the Propagator contract, the only error a build pass can raise is
a Values::at failure: the two assertion branches are unreachable. -/
theorem buildLoop_err (cfg : Config) (env : Env) (mapS : ℚ → ℕ) (ins : Bool)
    (hprop : PropContract env) :
    ∀ (rest doneRev : List ℚ) (values : Values) (graph : List Factor) (n : ℕ) (e : Err),
    buildLoop cfg env mapS ins doneRev rest values graph n = .error e →
    e = Err.valuesAtErr := by
  intro rest
  induction rest with
  | nil =>
    intro doneRev values graph n e h
    simp [buildLoop] at h
  | cons t rest' ih =>
    intro doneRev values graph n e h
    simp only [buildLoop] at h
    by_cases hr : env.rosOk n = false
    · rw [if_pos hr] at h; simp at h
    · rw [if_neg hr] at h
      cases hc : currToff cfg values with
      | none =>
        simp only [hc, Except.error.injEq] at h
        exact h.symm
      | some toff =>
        simp only [hc] at h
        cases hv : viconChecks env (t + toff) with
        | none =>
          simp only [hv] at h
          exact ih _ _ _ _ _ h
        | some m =>
          simp only [hv] at h
          cases doneRev with
          | nil => exact ih _ _ _ _ _ h
          | cons t0 d' =>
            cases ha : atNav (stepValues cfg env mapS ins t m values) (Key.X (mapS t0)) with
            | none =>
              simp only [ha, Except.error.injEq] at h
              exact h.symm
            | some st0 =>
              simp only [ha] at h
              obtain ⟨p, hp, hdt⟩ := hprop t0 t st0.bg st0.ba
              simp only [hp] at h
              rw [if_neg (by simpa using hdt)] at h
              exact ih _ _ _ _ _ h

theorem atNav_stepValues_isSome (cfg : Config) (env : Env) (mapS : ℚ → ℕ)
    (ins : Bool) (t : ℚ) (m : PoseMeas) (values : Values) (k : Key)
    (h : (atNav values k).isSome = true) :
    (atNav (stepValues cfg env mapS ins t m values) k).isSome = true := by
  cases ins
  · exact h
  · by_cases hk : k = Key.X (mapS t)
    · subst hk
      rw [stepValues_true, atNav_insert_nav]
      rfl
    · rw [stepValues_true,
        atNav_congr _ values _ (by rw [lookupV_insertV, if_neg (fun hh => hk hh.symm)])]
      exact h

/-- The workhorse: under the propagator contract, with no stop signal, an
injective index map over the walked timestamps, the time offset readable,
and a navigation state available for every already-kept timestamp (and, on
non-initializing rounds, for every surviving one), the build loop succeeds
and returns exactly the timestamps passing the vicon checks; kept
timestamps keep a navigation state, non-state keys are untouched, absent
state keys stay absent unless seeded for a kept timestamp, and every pruned
timestamp ends with its state erased. -/
theorem buildLoop_master (cfg : Config) (env : Env) (mapS : ℚ → ℕ) (ins : Bool) (τ : ℚ)
    (hprop : PropContract env) (hros : ∀ k, env.rosOk k = true) :
    ∀ (rest doneRev : List ℚ) (values : Values) (graph : List Factor) (n : ℕ),
    (∀ a b, (a ∈ doneRev ∨ a ∈ rest) → (b ∈ doneRev ∨ b ∈ rest) → mapS a = mapS b → a = b) →
    currToff cfg values = some τ →
    (∀ t ∈ doneRev, keepB env τ t = true) →
    (∀ t ∈ doneRev, (atNav values (Key.X (mapS t))).isSome = true) →
    (ins = false → ∀ t ∈ rest, keepB env τ t = true →
      (atNav values (Key.X (mapS t))).isSome = true) →
    ∃ v' g',
      buildLoop cfg env mapS ins doneRev rest values graph n
        = .ok (doneRev.reverse ++ rest.filter (fun t => keepB env τ t), v', g')
      ∧ (∀ t, t ∈ doneRev ∨ (t ∈ rest ∧ keepB env τ t = true) →
          (atNav v' (Key.X (mapS t))).isSome = true)
      ∧ (∀ k, (∀ i, k ≠ Key.X i) → lookupV v' k = lookupV values k)
      ∧ (∀ idx, lookupV values (Key.X idx) = none →
          (∀ t' ∈ rest, keepB env τ t' = true → mapS t' ≠ idx) →
          lookupV v' (Key.X idx) = none)
      ∧ (∀ t ∈ rest, keepB env τ t = false → lookupV v' (Key.X (mapS t)) = none) := by
  intro rest
  induction rest with
  | nil =>
    intro doneRev values graph n hinj hτ hkeep hnavd hnavr
    refine ⟨values, graph, by simp [buildLoop], ?_, fun k _ => rfl,
      fun idx h _ => h, by simp⟩
    intro t ht
    rcases ht with h | h
    · exact hnavd t h
    · exact absurd h.1 (List.not_mem_nil t)
  | cons t rest' ih =>
    intro doneRev values graph n hinj hτ hkeep hnavd hnavr
    cases hv : viconChecks env (t + τ) with
    | none =>
      have hkB : keepB env τ t = false := by simp [keepB, hv]
      have htne : ∀ t', keepB env τ t' = true → t' ≠ t := by
        intro t' hk' he
        rw [he, hkB] at hk'
        exact Bool.false_ne_true hk'
      have hmapne : ∀ t', (t' ∈ doneRev ∨ t' ∈ t :: rest') →
          keepB env τ t' = true → mapS t' ≠ mapS t := by
        intro t' ht' hk' hm
        exact htne t' hk' (hinj t' t ht' (Or.inr (List.mem_cons_self t rest')) hm)
      obtain ⟨v', g', heq, hs2, hs3, hsN, hs4⟩ :=
        ih doneRev (eraseV values (Key.X (mapS t))) graph (n + 1)
          (fun a b ha hb => hinj a b
            (by rcases ha with h | h; exact Or.inl h; exact Or.inr (List.mem_cons_of_mem _ h))
            (by rcases hb with h | h; exact Or.inl h; exact Or.inr (List.mem_cons_of_mem _ h)))
          (by rw [currToff_eraseX]; exact hτ)
          hkeep
          (by
            intro t' ht'
            rw [atNav_congr _ values _ (by
              rw [lookupV_eraseV, if_neg]
              intro hh
              exact hmapne t' (Or.inl ht') (hkeep t' ht') (by
                have := Key.X.inj hh
                exact this))]
            exact hnavd t' ht')
          (by
            intro hins t' ht' hk'
            rw [atNav_congr _ values _ (by
              rw [lookupV_eraseV, if_neg]
              intro hh
              exact hmapne t' (Or.inr (List.mem_cons_of_mem _ ht')) hk' (Key.X.inj hh))]
            exact hnavr hins t' (List.mem_cons_of_mem _ ht') hk')
      refine ⟨v', g', ?_, ?_, ?_, ?_, ?_⟩
      · simp only [buildLoop]
        rw [if_neg (by rw [hros n]; exact fun hh => Bool.true_eq_false.mp hh)]
        simp only [hτ, hv]
        rw [heq]
        simp [List.filter_cons, hkB]
      · intro t'' ht''
        rcases ht'' with h | ⟨hmem, hk''⟩
        · exact hs2 t'' (Or.inl h)
        · rcases List.mem_cons.mp hmem with h | h
          · exact absurd (h ▸ hk'') (by rw [hkB]; exact Bool.false_ne_true)
          · exact hs2 t'' (Or.inr ⟨h, hk''⟩)
      · intro k hk
        rw [hs3 k hk, lookupV_eraseV, if_neg (hk (mapS t))]
      · intro idx hnone hker
        refine hsN idx ?_ (fun t' ht' hk' => hker t' (List.mem_cons_of_mem _ ht') hk')
        rw [lookupV_eraseV]
        split
        · rfl
        · exact hnone
      · intro t'' ht'' hkf
        rcases List.mem_cons.mp ht'' with h | h
        · subst h
          refine hsN (mapS t'') ?_ ?_
          · rw [lookupV_eraseV, if_pos rfl]
          · intro t' ht' hk'
            exact hmapne t' (Or.inr (List.mem_cons_of_mem _ ht')) hk'
        · exact hs4 t'' h hkf
    | some m =>
      have hkB : keepB env τ t = true := by simp [keepB, hv]
      have hτ1 : currToff cfg (stepValues cfg env mapS ins t m values) = some τ := by
        rw [currToff_stepValues]; exact hτ
      have hnav1d : ∀ t' ∈ doneRev,
          (atNav (stepValues cfg env mapS ins t m values) (Key.X (mapS t'))).isSome = true :=
        fun t' ht' => atNav_stepValues_isSome cfg env mapS ins t m values _ (hnavd t' ht')
      have hnav1t : (atNav (stepValues cfg env mapS ins t m values)
          (Key.X (mapS t))).isSome = true := by
        cases hins : ins
        · rw [stepValues_false]
          exact hnavr hins t (List.mem_cons_self t rest') hkB
        · rw [stepValues_true, atNav_insert_nav]
          rfl
      have hnav1r : ins = false → ∀ t'' ∈ rest', keepB env τ t'' = true →
          (atNav (stepValues cfg env mapS ins t m values) (Key.X (mapS t''))).isSome = true := by
        intro hins t'' ht'' hk''
        subst hins
        rw [stepValues_false]
        exact hnavr rfl t'' (List.mem_cons_of_mem _ ht'') hk''
      have hstepN : ∀ idx, mapS t ≠ idx →
          lookupV (stepValues cfg env mapS ins t m values) (Key.X idx)
            = lookupV values (Key.X idx) := by
        intro idx hne
        exact lookupV_stepValues cfg env mapS ins t m values _
          (fun hh => hne (Key.X.inj hh).symm)
      cases doneRev with
      | nil =>
        obtain ⟨v', g', heq, hs2, hs3, hsN, hs4⟩ :=
          ih [t] (stepValues cfg env mapS ins t m values)
            (graph ++ [poseFactor cfg mapS t m]) (n + 1)
            (fun a b ha hb => hinj a b
              (by
                rcases ha with h | h
                · exact Or.inr (by simp at h; simp [h])
                · exact Or.inr (List.mem_cons_of_mem _ h))
              (by
                rcases hb with h | h
                · exact Or.inr (by simp at h; simp [h])
                · exact Or.inr (List.mem_cons_of_mem _ h)))
            hτ1
            (by intro t' ht'; simp at ht'; subst ht'; exact hkB)
            (by intro t' ht'; simp at ht'; subst ht'; exact hnav1t)
            hnav1r
        refine ⟨v', g', ?_, ?_, ?_, ?_, ?_⟩
        · simp only [buildLoop]
          rw [if_neg (by rw [hros n]; exact fun hh => Bool.true_eq_false.mp hh)]
          simp only [hτ, hv]
          rw [heq]
          simp [List.filter_cons, hkB]
        · intro t'' ht''
          rcases ht'' with h | ⟨hmem, hk''⟩
          · exact absurd h (List.not_mem_nil t'')
          · rcases List.mem_cons.mp hmem with h | h
            · exact hs2 t'' (Or.inl (by simp [h]))
            · exact hs2 t'' (Or.inr ⟨h, hk''⟩)
        · intro k hk
          rw [hs3 k hk]
          exact lookupV_stepValues cfg env mapS ins t m values _ (hk (mapS t))
        · intro idx hnone hker
          have hne : mapS t ≠ idx := hker t (List.mem_cons_self t rest') hkB
          refine hsN idx ?_ (fun t' ht' hk' => hker t' (List.mem_cons_of_mem _ ht') hk')
          rw [hstepN idx hne]
          exact hnone
        · intro t'' ht'' hkf
          rcases List.mem_cons.mp ht'' with h | h
          · subst h
            rw [hkB] at hkf
            exact absurd hkf (by simp)
          · exact hs4 t'' h hkf
      | cons t0 d' =>
        obtain ⟨st0, hst0⟩ := Option.isSome_iff_exists.mp (hnav1d t0 (List.mem_cons_self t0 d'))
        have hst0' : atNav (stepValues cfg env mapS ins t m values) (Key.X (mapS t0))
            = some st0 := hst0
        obtain ⟨p, hp, hdt⟩ := hprop t0 t st0.bg st0.ba
        obtain ⟨v', g', heq, hs2, hs3, hsN, hs4⟩ :=
          ih (t :: t0 :: d') (stepValues cfg env mapS ins t m values)
            ((graph ++ [poseFactor cfg mapS t m])
              ++ [Factor.imuCPI (Key.X (mapS t0)) (Key.X (mapS t)) (Key.G 0) p]) (n + 1)
            (fun a b ha hb => hinj a b
              (by
                rcases ha with h | h
                · rcases List.mem_cons.mp h with h2 | h2
                  · exact Or.inr (by simp [h2])
                  · exact Or.inl h2
                · exact Or.inr (List.mem_cons_of_mem _ h))
              (by
                rcases hb with h | h
                · rcases List.mem_cons.mp h with h2 | h2
                  · exact Or.inr (by simp [h2])
                  · exact Or.inl h2
                · exact Or.inr (List.mem_cons_of_mem _ h)))
            hτ1
            (by
              intro t' ht'
              rcases List.mem_cons.mp ht' with h | h
              · subst h; exact hkB
              · exact hkeep t' h)
            (by
              intro t' ht'
              rcases List.mem_cons.mp ht' with h | h
              · subst h; exact hnav1t
              · exact hnav1d t' h)
            hnav1r
        refine ⟨v', g', ?_, ?_, ?_, ?_, ?_⟩
        · simp only [buildLoop]
          rw [if_neg (by rw [hros n]; exact fun hh => Bool.true_eq_false.mp hh)]
          simp only [hτ, hv, hst0', hp]
          rw [if_neg (by rw [hdt]; exact fun hh => hh rfl)]
          rw [heq]
          simp [List.filter_cons, hkB, List.append_assoc]
        · intro t'' ht''
          rcases ht'' with h | ⟨hmem, hk''⟩
          · exact hs2 t'' (Or.inl (List.mem_cons_of_mem _ h))
          · rcases List.mem_cons.mp hmem with h | h
            · exact hs2 t'' (Or.inl (by simp [h]))
            · exact hs2 t'' (Or.inr ⟨h, hk''⟩)
        · intro k hk
          rw [hs3 k hk]
          exact lookupV_stepValues cfg env mapS ins t m values _ (hk (mapS t))
        · intro idx hnone hker
          have hne : mapS t ≠ idx := hker t (List.mem_cons_self t rest') hkB
          refine hsN idx ?_ (fun t' ht' hk' => hker t' (List.mem_cons_of_mem _ ht') hk')
          rw [hstepN idx hne]
          exact hnone
        · intro t'' ht'' hkf
          rcases List.mem_cons.mp ht'' with h | h
          · subst h
            rw [hkB] at hkf
            exact absurd hkf (by simp)
          · exact hs4 t'' h hkf

/-- The preamble prior factors carry no navigation-state keys. -/
theorem preGraph_stateKeys (cfg : Config) (env : Env) (τ : ℚ) :
    ∀ f ∈ preGraph cfg env τ, stateKeysOf f = [] := by
  intro f hf
  unfold preGraph at hf
  rcases List.mem_append.mp hf with h | h
  · by_cases hest : cfg.estimate_toff_vicon_to_imu = true <;> simp [hest] at h
    subst h; rfl
  · by_cases he : cfg.enforce_grav_mag = true <;> simp [he] at h
    subst h; rfl

/-- The preamble's time-offset prior content. -/
theorem preGraph_filter (cfg : Config) (env : Env) (τ : ℚ) :
    (preGraph cfg env τ).filter isToffPrior
      = (if cfg.estimate_toff_vicon_to_imu then
          [Factor.priorToff (Key.T 0) τ (1 / 50)] else []) := by
  by_cases hest : cfg.estimate_toff_vicon_to_imu = true <;>
    by_cases he : cfg.enforce_grav_mag = true <;>
    simp [preGraph, hest, he, isToffPrior]

/-- build_problem under the same hypotheses as the loop master lemma:
it succeeds, prunes exactly the timestamps failing the vicon checks at the
current time offset, its graph holds exactly one time-offset prior (with
mean the current offset estimate) when estimating and none otherwise, all
navigation-state keys in the graph come from the input timestamps, kept
timestamps have states, non-state keys are exactly the preamble's, and
pruned timestamps end without a state. -/
theorem build_problem_master (cfg : Config) (env : Env) (mapS : ℚ → ℕ) (ins : Bool)
    (ts : List ℚ) (values : Values)
    (hprop : PropContract env) (hros : ∀ k, env.rosOk k = true)
    (hinj : ∀ a b, a ∈ ts → b ∈ ts → mapS a = mapS b → a = b)
    (hT : cfg.estimate_toff_vicon_to_imu = true → ins = false →
      (atVec1 values (Key.T 0)).isSome = true)
    (hG : cfg.enforce_grav_mag = false → ins = false →
      (atVec3 values (Key.G 0)).isSome = true)
    (hnav : ins = false → ∀ t ∈ ts, (atNav values (Key.X (mapS t))).isSome = true) :
    ∃ τ v' g',
      currToff cfg (preValues cfg ins values) = some τ
      ∧ (ins = true → τ = cfg.init_toff_imu_to_vicon)
      ∧ (cfg.estimate_toff_vicon_to_imu = false → τ = cfg.init_toff_imu_to_vicon)
      ∧ (cfg.estimate_toff_vicon_to_imu = true → ins = false →
          atVec1 values (Key.T 0) = some τ)
      ∧ build_problem cfg env mapS ins ts values
          = .ok ⟨ts.filter (fun t => keepB env τ t), v', g'⟩
      ∧ g'.filter isToffPrior
          = (if cfg.estimate_toff_vicon_to_imu then
              [Factor.priorToff (Key.T 0) τ (1 / 50)] else [])
      ∧ (∀ f ∈ g', ∀ k ∈ stateKeysOf f, ∃ t', t' ∈ ts ∧ k = Key.X (mapS t'))
      ∧ (∀ t ∈ ts, keepB env τ t = true → (atNav v' (Key.X (mapS t))).isSome = true)
      ∧ (∀ k, (∀ i, k ≠ Key.X i) → lookupV v' k = lookupV (preValues cfg ins values) k)
      ∧ (∀ t ∈ ts, keepB env τ t = false → lookupV v' (Key.X (mapS t)) = none) := by
  have hpvf : ins = false → preValues cfg ins values = values := by
    intro h; subst h; simp [preValues, preValuesCG]
  obtain ⟨τ, hτpre, hτins, hτnoe, hτval⟩ :
      ∃ τ, currToff cfg (preValues cfg ins values) = some τ
        ∧ (ins = true → τ = cfg.init_toff_imu_to_vicon)
        ∧ (cfg.estimate_toff_vicon_to_imu = false → τ = cfg.init_toff_imu_to_vicon)
        ∧ (cfg.estimate_toff_vicon_to_imu = true → ins = false →
            atVec1 values (Key.T 0) = some τ) := by
    by_cases hest : cfg.estimate_toff_vicon_to_imu = true
    · cases ins with
      | true =>
        refine ⟨cfg.init_toff_imu_to_vicon, ?_, fun _ => rfl,
          fun h => absurd (h ▸ hest) (by simp), fun _ h => absurd h (by simp)⟩
        simp [currToff, hest, preValues, preValuesCG, atVec1, insertV, lookupV]
      | false =>
        obtain ⟨x, hx⟩ := Option.isSome_iff_exists.mp (hT hest rfl)
        refine ⟨x, ?_, fun h => absurd h (by simp),
          fun h => absurd (h ▸ hest) (by simp), fun _ _ => hx⟩
        rw [hpvf rfl]
        simp [currToff, hest, hx]
    · have hef : cfg.estimate_toff_vicon_to_imu = false := by simpa using hest
      refine ⟨cfg.init_toff_imu_to_vicon, ?_, fun _ => rfl, fun _ => rfl,
        fun h => absurd (hef ▸ h) (by simp)⟩
      simp [currToff, hef]
  have hGc : ((!cfg.enforce_grav_mag)
      && (atVec3 (preValues cfg ins values) (Key.G 0)).isNone) = false := by
    by_cases he : cfg.enforce_grav_mag = true
    · simp [he]
    · have hef : cfg.enforce_grav_mag = false := by simpa using he
      have hsome : (atVec3 (preValues cfg ins values) (Key.G 0)).isSome = true := by
        cases ins with
        | false => rw [hpvf rfl]; exact hG hef rfl
        | true =>
          by_cases hest : cfg.estimate_toff_vicon_to_imu = true <;>
            simp [preValues, preValuesCG, hest, atVec3, insertV, lookupV]
      simp only [hef, Bool.not_false, Bool.true_and]
      cases hx : atVec3 (preValues cfg ins values) (Key.G 0) with
      | none => rw [hx] at hsome; simp at hsome
      | some _ => simp
  obtain ⟨v', g', heq, hs2, hs3, hsN, hs4⟩ :=
    buildLoop_master cfg env mapS ins τ hprop hros ts [] (preValues cfg ins values)
      (preGraph cfg env τ) 0
      (fun a b ha hb => hinj a b
        (by rcases ha with h | h; exact absurd h (List.not_mem_nil a); exact h)
        (by rcases hb with h | h; exact absurd h (List.not_mem_nil b); exact h))
      hτpre
      (by simp)
      (by simp)
      (by
        intro hins t ht _
        rw [hpvf hins]
        exact hnav hins t ht)
  have heq' : buildLoop cfg env mapS ins [] ts (preValues cfg ins values)
      (preGraph cfg env τ) 0
      = .ok (ts.filter (fun t => keepB env τ t), v', g') := by
    simpa using heq
  obtain ⟨gadd, hgadd, hcl⟩ :=
    buildLoop_graphAdd cfg env mapS ins ts [] (preValues cfg ins values)
      (preGraph cfg env τ) 0 _ v' g' heq'
  refine ⟨τ, v', g', hτpre, hτins, hτnoe, hτval, ?_, ?_, ?_, ?_, hs3, ?_⟩
  · simp only [build_problem, hτpre, hGc, Bool.false_eq_true, if_false, heq']
  · rw [hgadd, List.filter_append, preGraph_filter]
    have hnil : gadd.filter isToffPrior = [] := by
      rw [List.filter_eq_nil_iff]
      intro f hf
      rw [(hcl f hf).1]
      simp
    rw [hnil, List.append_nil]
  · intro f hf k hk
    rw [hgadd] at hf
    rcases List.mem_append.mp hf with h | h
    · rw [preGraph_stateKeys cfg env τ f h] at hk
      exact absurd hk (List.not_mem_nil k)
    · obtain ⟨t', ht', hkt⟩ := (hcl f h).2 k hk
      rcases ht' with h1 | h1
      · exact absurd h1 (List.not_mem_nil t')
      · exact ⟨t', h1, hkt⟩
  · intro t ht hk
    exact hs2 t (Or.inr ⟨ht, hk⟩)
  · intro t ht hk
    exact hs4 t ht hk

theorem atVec1_tag (vs : Values) (k : Key) :
    (atVec1 vs k).isSome = true ↔ valTag (lookupV vs k) = 3 := by
  unfold atVec1 valTag
  cases h : lookupV vs k with
  | none => simp
  | some v => cases v <;> simp

theorem atVec3_tag (vs : Values) (k : Key) :
    (atVec3 vs k).isSome = true ↔ valTag (lookupV vs k) = 2 := by
  unfold atVec3 valTag
  cases h : lookupV vs k with
  | none => simp
  | some v => cases v <;> simp

theorem atRot_tag (vs : Values) (k : Key) :
    (atRot vs k).isSome = true ↔ valTag (lookupV vs k) = 1 := by
  unfold atRot valTag
  cases h : lookupV vs k with
  | none => simp
  | some v => cases v <;> simp

theorem atNav_tag (vs : Values) (k : Key) :
    (atNav vs k).isSome = true ↔ valTag (lookupV vs k) = 4 := by
  unfold atNav valTag
  cases h : lookupV vs k with
  | none => simp
  | some v => cases v <;> simp

/-- An optimizer keeping key types keeps the run invariant. -/
theorem RInv_opt (cfg : Config) (env : Env) (mapS : ℚ → ℕ) (g : List Factor)
    (v : Values) (ts : List ℚ) (hopt : OptTagContract env)
    (h : RInv cfg mapS v ts) : RInv cfg mapS (env.optimize g v) ts := by
  obtain ⟨h1, h2, h3, h4, h5⟩ := h
  refine ⟨?_, ?_, ?_, ?_, ?_⟩
  · intro hest
    rw [atVec1_tag, hopt g v (Key.T 0)]
    exact (atVec1_tag v (Key.T 0)).mp (h1 hest)
  · rw [atRot_tag, hopt g v (Key.C 0)]
    exact (atRot_tag v (Key.C 0)).mp h2
  · rw [atVec3_tag, hopt g v (Key.C 1)]
    exact (atVec3_tag v (Key.C 1)).mp h3
  · rw [atVec3_tag, hopt g v (Key.G 0)]
    exact (atVec3_tag v (Key.G 0)).mp h4
  · intro t ht
    rw [atNav_tag, hopt g v (Key.X (mapS t))]
    exact (atNav_tag v (Key.X (mapS t))).mp (h5 t ht)

theorem preValues_T (cfg : Config) (values : Values)
    (hest : cfg.estimate_toff_vicon_to_imu = true) :
    lookupV (preValues cfg true values) (Key.T 0)
      = some (Val.vec1 cfg.init_toff_imu_to_vicon) := by
  simp [preValues, hest, preValuesCG, insertV, lookupV]

theorem preValues_C0 (cfg : Config) (values : Values) :
    lookupV (preValues cfg true values) (Key.C 0)
      = some (Val.rot cfg.init_R_BtoI) := by
  by_cases hest : cfg.estimate_toff_vicon_to_imu = true <;>
    simp [preValues, preValuesCG, hest, insertV, lookupV]

theorem preValues_C1 (cfg : Config) (values : Values) :
    lookupV (preValues cfg true values) (Key.C 1)
      = some (Val.vec3 cfg.init_p_BinI) := by
  by_cases hest : cfg.estimate_toff_vicon_to_imu = true <;>
    simp [preValues, preValuesCG, hest, insertV, lookupV]

theorem preValues_G (cfg : Config) (values : Values) :
    lookupV (preValues cfg true values) (Key.G 0)
      = some (Val.vec3 cfg.init_grav_inV) := by
  by_cases hest : cfg.estimate_toff_vicon_to_imu = true <;>
    simp [preValues, preValuesCG, hest, insertV, lookupV]

theorem preValues_false (cfg : Config) (values : Values) :
    preValues cfg false values = values := by
  simp [preValues, preValuesCG]

/-- Inversion of a successful build_problem into its preamble time offset
and build loop run. -/
theorem build_problem_inv (cfg : Config) (env : Env) (mapS : ℚ → ℕ) (ins : Bool)
    (ts : List ℚ) (values : Values) (out : BuildOut)
    (h : build_problem cfg env mapS ins ts values = .ok out) :
    ∃ τ, currToff cfg (preValues cfg ins values) = some τ ∧
      buildLoop cfg env mapS ins [] ts (preValues cfg ins values)
        (preGraph cfg env τ) 0 = .ok (out.ts, out.values, out.graph) := by
  unfold build_problem at h
  cases hc : currToff cfg (preValues cfg ins values) with
  | none => simp [hc] at h
  | some τ =>
    simp only [hc] at h
    refine ⟨τ, rfl, ?_⟩
    split at h
    · simp at h
    · cases hb : buildLoop cfg env mapS ins [] ts (preValues cfg ins values)
          (preGraph cfg env τ) 0 with
      | error e => rw [hb] at h; simp at h
      | ok o =>
        rw [hb] at h
        obtain ⟨a, b, c⟩ := o
        simp only [Except.ok.injEq] at h
        rw [← h]

/-- A build pass can only shrink the timestamp list. -/
theorem build_problem_sublist (cfg : Config) (env : Env) (mapS : ℚ → ℕ) (ins : Bool)
    (ts : List ℚ) (values : Values) (out : BuildOut)
    (h : build_problem cfg env mapS ins ts values = .ok out) :
    out.ts.Sublist ts := by
  obtain ⟨τ, _, hb⟩ := build_problem_inv cfg env mapS ins ts values out h
  have := buildLoop_sublist cfg env mapS ins ts [] (preValues cfg ins values)
    (preGraph cfg env τ) 0 out.ts out.values out.graph hb
  simpa using this

/-- Every navigation-state key referenced by a factor of a built graph is
the key of one of the input timestamps. -/
theorem build_problem_graphKeys (cfg : Config) (env : Env) (mapS : ℚ → ℕ) (ins : Bool)
    (ts : List ℚ) (values : Values) (out : BuildOut)
    (h : build_problem cfg env mapS ins ts values = .ok out) :
    ∀ f ∈ out.graph, ∀ k ∈ stateKeysOf f, ∃ t', t' ∈ ts ∧ k = Key.X (mapS t') := by
  obtain ⟨τ, _, hb⟩ := build_problem_inv cfg env mapS ins ts values out h
  obtain ⟨gadd, hg, hcl⟩ := buildLoop_graphAdd cfg env mapS ins ts []
    (preValues cfg ins values) (preGraph cfg env τ) 0 out.ts out.values out.graph hb
  intro f hf k hk
  rw [hg] at hf
  rcases List.mem_append.mp hf with h1 | h1
  · rw [preGraph_stateKeys cfg env τ f h1] at hk
    exact absurd hk (List.not_mem_nil k)
  · obtain ⟨t', ht', hkt⟩ := (hcl f h1).2 k hk
    rcases ht' with h2 | h2
    · exact absurd h2 (List.not_mem_nil t')
    · exact ⟨t', h2, hkt⟩

/-- A non-initializing build pass adds no keys to the value set. -/
theorem buildLoop_keysF (cfg : Config) (env : Env) (mapS : ℚ → ℕ) :
    ∀ (rest doneRev : List ℚ) (values : Values) (graph : List Factor) (n : ℕ)
      (ts' : List ℚ) (v' : Values) (g' : List Factor),
    buildLoop cfg env mapS false doneRev rest values graph n = .ok (ts', v', g') →
    ∀ k, containsV v' k = true → containsV values k = true := by
  intro rest
  induction rest with
  | nil =>
    intro doneRev values graph n ts' v' g' h k hk
    simp only [buildLoop, Except.ok.injEq, Prod.mk.injEq] at h
    rw [h.2.1]
    exact hk
  | cons t rest' ih =>
    intro doneRev values graph n ts' v' g' h k hk
    simp only [buildLoop] at h
    by_cases hr : env.rosOk n = false
    · rw [if_pos hr] at h
      simp only [Except.ok.injEq, Prod.mk.injEq] at h
      rw [h.2.1]
      exact hk
    · rw [if_neg hr] at h
      cases hc : currToff cfg values with
      | none => simp [hc] at h
      | some toff =>
        simp only [hc] at h
        cases hv : viconChecks env (t + toff) with
        | none =>
          simp only [hv] at h
          have := ih _ _ _ _ _ _ _ h k hk
          unfold containsV at this ⊢
          rw [lookupV_eraseV] at this
          by_cases hke : k = Key.X (mapS t)
          · rw [if_pos hke] at this
            simp at this
          · rw [if_neg hke] at this
            exact this
        | some m =>
          simp only [hv] at h
          cases doneRev with
          | nil =>
            have := ih _ _ _ _ _ _ _ h k hk
            rw [stepValues_false] at this
            exact this
          | cons t0 d' =>
            cases ha : atNav (stepValues cfg env mapS false t m values)
                (Key.X (mapS t0)) with
            | none => simp [ha] at h
            | some st0 =>
              simp only [ha] at h
              cases hp : env.propagate t0 t st0.bg st0.ba with
              | none => simp [hp] at h
              | some pre =>
                simp only [hp] at h
                by_cases hdt : pre.DT = t - t0
                · rw [if_neg (by simpa using hdt)] at h
                  have := ih _ _ _ _ _ _ _ h k hk
                  rw [stepValues_false] at this
                  exact this
                · rw [if_pos (by simpa using hdt)] at h
                  simp at h

/-- A non-initializing build_problem adds no keys to the value set. -/
theorem build_problem_keysF (cfg : Config) (env : Env) (mapS : ℚ → ℕ)
    (ts : List ℚ) (values : Values) (out : BuildOut)
    (h : build_problem cfg env mapS false ts values = .ok out) :
    ∀ k, containsV out.values k = true → containsV values k = true := by
  obtain ⟨τ, _, hb⟩ := build_problem_inv cfg env mapS false ts values out h
  intro k hk
  have := buildLoop_keysF cfg env mapS ts [] (preValues cfg false values)
    (preGraph cfg env τ) 0 out.ts out.values out.graph hb k hk
  rw [preValues_false] at this
  exact this

/-- Under the propagator contract, the only error build_problem can raise
is a Values::at failure (neither assertion can fire). -/
theorem build_problem_err (cfg : Config) (env : Env) (mapS : ℚ → ℕ) (ins : Bool)
    (ts : List ℚ) (values : Values) (e : Err) (hprop : PropContract env)
    (h : build_problem cfg env mapS ins ts values = .error e) :
    e = Err.valuesAtErr := by
  unfold build_problem at h
  cases hc : currToff cfg (preValues cfg ins values) with
  | none =>
    simp only [hc, Except.error.injEq] at h
    exact h.symm
  | some τ =>
    simp only [hc] at h
    split at h
    · simp only [Except.error.injEq] at h
      exact h.symm
    · cases hb : buildLoop cfg env mapS ins [] ts (preValues cfg ins values)
          (preGraph cfg env τ) 0 with
      | error e2 =>
        rw [hb] at h
        simp only [Except.error.injEq] at h
        rw [← h]
        exact buildLoop_err cfg env mapS ins hprop _ _ _ _ _ _ hb
      | ok o =>
        rw [hb] at h
        obtain ⟨a, b, c⟩ := o
        simp at h

/-- A successful relinearization loop records one trace round per
iteration, chained as RoundsSpec describes. -/
theorem solveLoop_trace (cfg : Config) (env : Env) (mapS : ℚ → ℕ) :
    ∀ (r i : ℕ) (ts : List ℚ) (values vres : Values) (acc : List Round)
      (ts' : List ℚ) (vres' : Values) (rounds : List Round),
    solveLoop cfg env mapS r i ts values vres acc = .ok (ts', vres', rounds) →
    ∃ new, rounds = acc.reverse ++ new ∧ new.length = r
      ∧ RoundsSpec cfg env mapS i ts values new := by
  intro r
  induction r with
  | zero =>
    intro i ts values vres acc ts' vres' rounds h
    simp only [solveLoop, Except.ok.injEq, Prod.mk.injEq] at h
    exact ⟨[], by simp [← h.2.2], rfl, trivial⟩
  | succ r ih =>
    intro i ts values vres acc ts' vres' rounds h
    simp only [solveLoop] at h
    cases hb : build_problem cfg env mapS (i == 0) ts values with
    | error e => rw [hb] at h; simp at h
    | ok b =>
      simp only [hb] at h
      split at h
      · simp at h
      · obtain ⟨new, hnew, hlen, hspec⟩ := ih _ _ _ _ _ _ _ _ h
        refine ⟨⟨(i == 0), ts, values, b.ts, b.values, b.graph,
          env.optimize b.graph b.values⟩ :: new, ?_, by simp [hlen], ?_⟩
        · rw [hnew]; simp
        · exact ⟨rfl, rfl, rfl, hb, rfl, hspec⟩

/-- Along a round trace, the initialize flag is set exactly on global round
zero. -/
theorem RoundsSpec_initFlag (cfg : Config) (env : Env) (mapS : ℚ → ℕ) :
    ∀ (rds : List Round) (i : ℕ) (ts : List ℚ) (values : Values),
    RoundsSpec cfg env mapS i ts values rds →
    ∀ j (hj : j < rds.length), (rds.get ⟨j, hj⟩).initFlag = ((i + j) == 0) := by
  intro rds
  induction rds with
  | nil =>
    intro i ts values h j hj
    exact absurd hj (by simp)
  | cons rd rds ih =>
    intro i ts values h j hj
    obtain ⟨h1, _, _, _, _, hrec⟩ := h
    cases j with
    | zero => simpa using h1
    | succ j =>
      have := ih (i + 1) _ _ hrec j (by simpa using hj)
      have harith : i + 1 + j = i + (j + 1) := by omega
      rw [harith] at this
      simpa using this

/-- Along a round trace, every round's input and output timestamp lists are
sublists of the original list. -/
theorem RoundsSpec_sublist (cfg : Config) (env : Env) (mapS : ℚ → ℕ) :
    ∀ (rds : List Round) (i : ℕ) (ts : List ℚ) (values : Values),
    RoundsSpec cfg env mapS i ts values rds →
    ∀ rd ∈ rds, rd.tsIn.Sublist ts ∧ rd.tsOut.Sublist ts := by
  intro rds
  induction rds with
  | nil =>
    intro i ts values h rd hrd
    exact absurd hrd (List.not_mem_nil rd)
  | cons rd0 rds ih =>
    intro i ts values h rd hrd
    obtain ⟨_, hts, _, hbp, _, hrec⟩ := h
    have hout : rd0.tsOut.Sublist ts := by
      have := build_problem_sublist cfg env mapS rd0.initFlag ts values
        ⟨rd0.tsOut, rd0.valuesBuilt, rd0.graph⟩ hbp
      simpa using this
    rcases List.mem_cons.mp hrd with h1 | h1
    · subst h1
      exact ⟨by rw [hts], hout⟩
    · obtain ⟨ha, hb2⟩ := ih (i + 1) rd0.tsOut rd0.valuesRes hrec rd h1
      exact ⟨ha.trans hout, hb2.trans hout⟩

/-- Under the propagator contract, the only error the relinearization loop
can raise is a Values::at failure. -/
theorem solveLoop_err (cfg : Config) (env : Env) (mapS : ℚ → ℕ)
    (hprop : PropContract env) :
    ∀ (r i : ℕ) (ts : List ℚ) (values vres : Values) (acc : List Round) (e : Err),
    solveLoop cfg env mapS r i ts values vres acc = .error e →
    e = Err.valuesAtErr := by
  intro r
  induction r with
  | zero =>
    intro i ts values vres acc e h
    simp [solveLoop] at h
  | succ r ih =>
    intro i ts values vres acc e h
    simp only [solveLoop] at h
    cases hb : build_problem cfg env mapS (i == 0) ts values with
    | error e2 =>
      rw [hb] at h
      simp only [Except.error.injEq] at h
      rw [← h]
      exact build_problem_err cfg env mapS _ ts values e2 hprop hb
    | ok b =>
      simp only [hb] at h
      split at h
      · simp only [Except.error.injEq] at h
        exact h.symm
      · exact ih _ _ _ _ _ _ h

/-- Success of the relinearization loop: under the external contracts, an
injective index map, and the run invariant (already established when the
loop is entered past round zero), every iteration succeeds, the surviving
timestamps stay a sublist of the originals, and the invariant holds of the
final optimized values. -/
theorem solveLoop_ok (cfg : Config) (env : Env) (mapS : ℚ → ℕ) (ts1 : List ℚ)
    (hprop : PropContract env) (hros : ∀ k, env.rosOk k = true)
    (hopt : OptTagContract env)
    (hinj1 : ∀ a b, a ∈ ts1 → b ∈ ts1 → mapS a = mapS b → a = b) :
    ∀ (r i : ℕ) (ts : List ℚ) (values vres : Values) (acc : List Round),
    ts.Sublist ts1 →
    (i ≠ 0 → RInv cfg mapS values ts) →
    ∃ ts' vres' rounds,
      solveLoop cfg env mapS r i ts values vres acc = .ok (ts', vres', rounds)
      ∧ ts'.Sublist ts1
      ∧ (1 ≤ r → RInv cfg mapS vres' ts')
      ∧ (r = 0 → ts' = ts ∧ vres' = vres) := by
  intro r
  induction r with
  | zero =>
    intro i ts values vres acc hsub hRI
    exact ⟨ts, vres, acc.reverse, by simp [solveLoop], hsub,
      fun h => absurd h (by omega), fun _ => ⟨rfl, rfl⟩⟩
  | succ r ih =>
    intro i ts values vres acc hsub hRI
    have hbeq : ((i == 0) = false) → i ≠ 0 := by
      intro h
      cases i
      · simp at h
      · simp
    obtain ⟨τ, v', g', hτpre, hτins, hτnoe, hτval, hbp, hfil, hcov, hnavk, hnonX, hpruned⟩ :=
      build_problem_master cfg env mapS (i == 0) ts values hprop hros
        (fun a b ha hb => hinj1 a b (hsub.subset ha) (hsub.subset hb))
        (fun hest hf => (hRI (hbeq hf)).1 hest)
        (fun _ hf => (hRI (hbeq hf)).2.2.2.1)
        (fun hf t ht => (hRI (hbeq hf)).2.2.2.2 t ht)
    have hRIv' : RInv cfg mapS v' (ts.filter (fun t => keepB env τ t)) := by
      have hlookup : ∀ k : Key, (∀ i2 : ℕ, k ≠ Key.X i2) →
          lookupV v' k = lookupV (preValues cfg (i == 0) values) k := hnonX
      refine ⟨?_, ?_, ?_, ?_, ?_⟩
      · intro hest
        rw [atVec1_congr _ (preValues cfg (i == 0) values) _ (hlookup _ (by simp))]
        cases hi : (i == 0) with
        | true =>
          rw [atVec1_tag, preValues_T cfg values hest]
          rfl
        | false =>
          rw [preValues_false]
          exact (hRI (hbeq hi)).1 hest
      · rw [atRot_congr _ (preValues cfg (i == 0) values) _ (hlookup _ (by simp))]
        cases hi : (i == 0) with
        | true =>
          rw [atRot_tag, preValues_C0 cfg values]
          rfl
        | false =>
          rw [preValues_false]
          exact (hRI (hbeq hi)).2.1
      · rw [atVec3_congr _ (preValues cfg (i == 0) values) _ (hlookup _ (by simp))]
        cases hi : (i == 0) with
        | true =>
          rw [atVec3_tag, preValues_C1 cfg values]
          rfl
        | false =>
          rw [preValues_false]
          exact (hRI (hbeq hi)).2.2.1
      · rw [atVec3_congr _ (preValues cfg (i == 0) values) _ (hlookup _ (by simp))]
        cases hi : (i == 0) with
        | true =>
          rw [atVec3_tag, preValues_G cfg values]
          rfl
        | false =>
          rw [preValues_false]
          exact (hRI (hbeq hi)).2.2.2.1
      · intro t ht
        obtain ⟨htm, htk⟩ := List.mem_filter.mp ht
        exact hnavk t htm htk
    have hRIopt : RInv cfg mapS (env.optimize g' v')
        (ts.filter (fun t => keepB env τ t)) :=
      RInv_opt cfg env mapS g' v' _ hopt hRIv'
    have hcond : (cfg.estimate_toff_vicon_to_imu
        && (atVec1 (env.optimize g' v') (Key.T 0)).isNone) = false := by
      by_cases hest : cfg.estimate_toff_vicon_to_imu = true
      · have := hRIopt.1 hest
        rw [hest, Bool.true_and]
        cases hx : atVec1 (env.optimize g' v') (Key.T 0) with
        | none => rw [hx] at this; simp at this
        | some _ => simp
      · have hef : cfg.estimate_toff_vicon_to_imu = false := by simpa using hest
        rw [hef, Bool.false_and]
    obtain ⟨ts'', vres'', rounds'', hsl, hsub'', hRIfin, hzero⟩ :=
      ih (i + 1) (ts.filter (fun t => keepB env τ t)) (env.optimize g' v')
        (env.optimize g' v')
        (⟨(i == 0), ts, values, ts.filter (fun t => keepB env τ t), v', g',
          env.optimize g' v'⟩ :: acc)
        ((List.filter_sublist ts).trans hsub)
        (fun _ => hRIopt)
    refine ⟨ts'', vres'', rounds'', ?_, hsub'', ?_, fun hzero2 => by omega⟩
    · simp only [solveLoop, hbp, hcond, Bool.false_eq_true, if_false]
      exact hsl
    · intro _
      rcases Nat.eq_zero_or_pos r with hr0 | hr1
      · obtain ⟨he1, he2⟩ := hzero hr0
        rw [he1, he2]
        exact hRIopt
      · exact hRIfin hr1

theorem mapStates_get : ∀ (l : List ℚ) (t : ℚ), t ∈ l →
    l.get? (mapStates l t) = some t := by
  intro l
  induction l with
  | nil => intro t ht; exact absurd ht (List.not_mem_nil t)
  | cons a l ih =>
    intro t ht
    by_cases ha : a = t
    · simp [mapStates, ha]
    · have htl : t ∈ l := by
        rcases List.mem_cons.mp ht with h | h
        · exact absurd h.symm ha
        · exact h
      simp only [mapStates, ha, if_false, List.get?_cons_succ]
      exact ih t htl

/-- The timestamp-to-index map is injective on the timestamps it indexes. -/
theorem mapStates_inj (l : List ℚ) (a b : ℚ) (ha : a ∈ l) (hb : b ∈ l)
    (h : mapStates l a = mapStates l b) : a = b := by
  have h1 := mapStates_get l a ha
  have h2 := mapStates_get l b hb
  rw [h, h2] at h1
  exact (Option.some.inj h1).symm

/-- On a strictly sorted list the index map is strictly monotone. -/
theorem mapStates_mono : ∀ (l : List ℚ), l.Pairwise (· < ·) →
    ∀ a b, a ∈ l → b ∈ l → a < b → mapStates l a < mapStates l b := by
  intro l
  induction l with
  | nil => intro _ a b ha; exact absurd ha (List.not_mem_nil a)
  | cons c l ih =>
    intro hs a b ha hb hab
    have hcl : ∀ x ∈ l, c < x := fun x hx => (List.pairwise_cons.mp hs).1 x hx
    have hsl : l.Pairwise (· < ·) := (List.pairwise_cons.mp hs).2
    by_cases hca : c = a
    · subst hca
      have hcb : c ≠ b := fun h => absurd (h ▸ hab) (lt_irrefl c)
      simp [mapStates, hcb]
    · have hal : a ∈ l := by
        rcases List.mem_cons.mp ha with h | h
        · exact absurd h.symm hca
        · exact h
      have hcb : c ≠ b := fun h => absurd (hcl a hal) (by rw [h]; exact not_lt.mpr (le_of_lt hab))
      have hbl : b ∈ l := by
        rcases List.mem_cons.mp hb with h | h
        · exact absurd h.symm hcb
        · exact h
      have := ih hsl a b hal hbl hab
      simp [mapStates, hca, hcb]
      omega

theorem getLastD_mem : ∀ (l : List ℚ) (d : ℚ), l.getLastD d = d ∨ l.getLastD d ∈ l := by
  intro l
  induction l with
  | nil => intro d; exact Or.inl rfl
  | cons a l ih =>
    intro d
    have hc : (a :: l).getLastD d = l.getLastD a := by
      cases l <;> rfl
    rcases ih a with h | h
    · refine Or.inr ?_
      rw [hc, h]
      exact List.mem_cons_self a l
    · refine Or.inr ?_
      rw [hc]
      exact List.mem_cons_of_mem a h

/-- Inversion of a successful debug block. -/
theorem finalChecks_inv (cfg : Config) (mapS : ℚ → ℕ) (ts1 ts' : List ℚ)
    (vres : Values) (rounds : List Round) (res : Result)
    (h : finalChecks cfg mapS ts1 ts' vres rounds = .ok res) :
    res = ⟨ts1, ts', vres, rounds⟩ ∧ ts' ≠ [] := by
  cases ts' with
  | nil => simp [finalChecks] at h
  | cons t0 rest' =>
    simp only [finalChecks] at h
    split at h
    · simp at h
    · simp only [Except.ok.injEq] at h
      exact ⟨h.symm, by simp⟩

/-- The debug block succeeds when some timestamp survived and the run
invariant holds of the final values. -/
theorem finalChecks_ok (cfg : Config) (mapS : ℚ → ℕ) (ts1 ts' : List ℚ)
    (vres : Values) (rounds : List Round)
    (hne : ts' ≠ []) (hRI : RInv cfg mapS vres ts') :
    finalChecks cfg mapS ts1 ts' vres rounds = .ok ⟨ts1, ts', vres, rounds⟩ := by
  obtain ⟨h1, h2, h3, h4, h5⟩ := hRI
  cases ts' with
  | nil => exact absurd rfl hne
  | cons t0 rest' =>
    have hsome_none : ∀ t ∈ t0 :: rest',
        (atNav vres (Key.X (mapS t))).isNone = false := by
      intro t ht
      have := h5 t ht
      cases hx : atNav vres (Key.X (mapS t)) with
      | none => rw [hx] at this; simp at this
      | some _ => simp
    have hlast : (t0 :: rest').getLastD t0 ∈ t0 :: rest' := by
      rcases getLastD_mem (t0 :: rest') t0 with h | h
      · rw [h]; exact List.mem_cons_self t0 rest'
      · exact h
    simp only [finalChecks]
    rw [if_neg]
    intro hcond
    simp only [Bool.or_eq_true] at hcond
    rcases hcond with ((((hc | hc) | hc) | hc) | hc) | hc
    · rw [hsome_none t0 (List.mem_cons_self t0 rest')] at hc
      exact Bool.false_ne_true hc
    · rw [hsome_none _ hlast] at hc
      exact Bool.false_ne_true hc
    · cases hx : atRot vres (Key.C 0) with
      | none => rw [hx] at h2; simp at h2
      | some _ => rw [hx] at hc; simp at hc
    · cases hx : atVec3 vres (Key.C 1) with
      | none => rw [hx] at h3; simp at h3
      | some _ => rw [hx] at hc; simp at hc
    · cases hx : atVec3 vres (Key.G 0) with
      | none => rw [hx] at h4; simp at h4
      | some _ => rw [hx] at hc; simp at hc
    · rw [Bool.and_eq_true] at hc
      cases hx : atVec1 vres (Key.T 0) with
      | none =>
        have := h1 hc.1
        rw [hx] at this
        simp at this
      | some _ => rw [hx] at hc; simp at hc

/-- Inversion of a successful full run. -/
theorem build_and_solve_inv (cfg : Config) (env : Env) (ts0 : List ℚ) (r : Result)
    (h : build_and_solve cfg env ts0 = .ok r) :
    ts0 ≠ [] ∧ r.mapTs = boundedTs env ts0 ∧ r.mapTs ≠ [] ∧ r.ts ≠ []
    ∧ solveLoop cfg env (mapStates r.mapTs) (cfg.num_loop_relin + 1).toNat 0
        r.mapTs [] [] [] = .ok (r.ts, r.valuesRes, r.rounds) := by
  unfold build_and_solve at h
  by_cases h0 : ts0 = []
  · rw [if_pos h0] at h; simp at h
  · rw [if_neg h0] at h
    by_cases h1 : boundedTs env ts0 = []
    · rw [if_pos h1] at h; simp at h
    · rw [if_neg h1] at h
      cases hs : solveLoop cfg env (mapStates (boundedTs env ts0))
          (cfg.num_loop_relin + 1).toNat 0 (boundedTs env ts0) [] [] [] with
      | error e => rw [hs] at h; simp at h
      | ok o =>
        rw [hs] at h
        obtain ⟨ts', vres, rounds⟩ := o
        obtain ⟨hres, hne⟩ := finalChecks_inv cfg (mapStates (boundedTs env ts0))
          (boundedTs env ts0) ts' vres rounds r h
        subst hres
        exact ⟨h0, rfl, h1, hne, hs⟩

/-- The relinearization loop only shrinks the timestamp list. -/
theorem solveLoop_sublist (cfg : Config) (env : Env) (mapS : ℚ → ℕ) :
    ∀ (r i : ℕ) (ts : List ℚ) (values vres : Values) (acc : List Round)
      (ts' : List ℚ) (vres' : Values) (rounds : List Round),
    solveLoop cfg env mapS r i ts values vres acc = .ok (ts', vres', rounds) →
    ts'.Sublist ts := by
  intro r
  induction r with
  | zero =>
    intro i ts values vres acc ts' vres' rounds h
    simp only [solveLoop, Except.ok.injEq, Prod.mk.injEq] at h
    rw [← h.1]
  | succ r ih =>
    intro i ts values vres acc ts' vres' rounds h
    simp only [solveLoop] at h
    cases hb : build_problem cfg env mapS (i == 0) ts values with
    | error e => rw [hb] at h; simp at h
    | ok b =>
      simp only [hb] at h
      split at h
      · simp at h
      · exact (ih _ _ _ _ _ _ _ _ h).trans (build_problem_sublist cfg env mapS _ _ _ _ hb)

/-- Per-round facts along a trace: each round came from a successful build
on its own inputs, and its optimized values are the optimizer's output. -/
theorem RoundsSpec_mem (cfg : Config) (env : Env) (mapS : ℚ → ℕ) :
    ∀ (rds : List Round) (i : ℕ) (ts : List ℚ) (values : Values),
    RoundsSpec cfg env mapS i ts values rds →
    ∀ rd ∈ rds, build_problem cfg env mapS rd.initFlag rd.tsIn rd.valuesIn
        = .ok ⟨rd.tsOut, rd.valuesBuilt, rd.graph⟩
      ∧ rd.valuesRes = env.optimize rd.graph rd.valuesBuilt := by
  intro rds
  induction rds with
  | nil =>
    intro i ts values h rd hrd
    exact absurd hrd (List.not_mem_nil rd)
  | cons rd0 rds ih =>
    intro i ts values h rd hrd
    obtain ⟨_, hts, hvals, hbp, hres, hrec⟩ := h
    rcases List.mem_cons.mp hrd with h1 | h1
    · subst h1
      rw [hts, hvals]
      exact ⟨hbp, hres⟩
    · exact ih (i + 1) rd0.tsOut rd0.valuesRes hrec rd h1

/-- A build pass leaves every non-state key binding unchanged. -/
theorem buildLoop_nonX (cfg : Config) (env : Env) (mapS : ℚ → ℕ) (ins : Bool) :
    ∀ (rest doneRev : List ℚ) (values : Values) (graph : List Factor) (n : ℕ)
      (ts' : List ℚ) (v' : Values) (g' : List Factor),
    buildLoop cfg env mapS ins doneRev rest values graph n = .ok (ts', v', g') →
    ∀ k, (∀ i2, k ≠ Key.X i2) → lookupV v' k = lookupV values k := by
  intro rest
  induction rest with
  | nil =>
    intro doneRev values graph n ts' v' g' h k hk
    simp only [buildLoop, Except.ok.injEq, Prod.mk.injEq] at h
    rw [h.2.1]
  | cons t rest' ih =>
    intro doneRev values graph n ts' v' g' h k hk
    simp only [buildLoop] at h
    by_cases hr : env.rosOk n = false
    · rw [if_pos hr] at h
      simp only [Except.ok.injEq, Prod.mk.injEq] at h
      rw [h.2.1]
    · rw [if_neg hr] at h
      cases hc : currToff cfg values with
      | none => simp [hc] at h
      | some toff =>
        simp only [hc] at h
        cases hv : viconChecks env (t + toff) with
        | none =>
          simp only [hv] at h
          rw [ih _ _ _ _ _ _ _ h k hk, lookupV_eraseV, if_neg (hk (mapS t))]
        | some m =>
          simp only [hv] at h
          cases doneRev with
          | nil =>
            rw [ih _ _ _ _ _ _ _ h k hk]
            exact lookupV_stepValues cfg env mapS ins t m values _ (hk (mapS t))
          | cons t0 d' =>
            cases ha : atNav (stepValues cfg env mapS ins t m values)
                (Key.X (mapS t0)) with
            | none => simp [ha] at h
            | some st0 =>
              simp only [ha] at h
              cases hp : env.propagate t0 t st0.bg st0.ba with
              | none => simp [hp] at h
              | some pre =>
                simp only [hp] at h
                by_cases hdt : pre.DT = t - t0
                · rw [if_neg (by simpa using hdt)] at h
                  rw [ih _ _ _ _ _ _ _ h k hk]
                  exact lookupV_stepValues cfg env mapS ins t m values _ (hk (mapS t))
                · rw [if_pos (by simpa using hdt)] at h
                  simp at h

theorem lookupV_preValuesCG_T (cfg : Config) (ins : Bool) (values : Values) :
    lookupV (preValuesCG cfg ins values) (Key.T 0) = lookupV values (Key.T 0) := by
  cases ins <;> simp [preValuesCG, insertV, lookupV]

/-- When the time offset is not being estimated, the preamble never touches
the T(0) binding. -/
theorem lookupV_preValues_T (cfg : Config) (ins : Bool) (values : Values)
    (hef : cfg.estimate_toff_vicon_to_imu = false) :
    lookupV (preValues cfg ins values) (Key.T 0) = lookupV values (Key.T 0) := by
  rw [preValues, hef]
  simp [lookupV_preValuesCG_T]

theorem currToff_preValues_true (cfg : Config) (values : Values)
    (hest : cfg.estimate_toff_vicon_to_imu = true) :
    currToff cfg (preValues cfg true values) = some cfg.init_toff_imu_to_vicon := by
  unfold currToff
  rw [if_pos hest]
  unfold atVec1
  rw [preValues_T cfg values hest]

/-- The debug block's only errors are the out-of-range read on an empty
surviving list and Values::at failures. -/
theorem finalChecks_err (cfg : Config) (mapS : ℚ → ℕ) (ts1 ts' : List ℚ)
    (vres : Values) (rounds : List Round) (e : Err)
    (h : finalChecks cfg mapS ts1 ts' vres rounds = .error e) :
    e = Err.vecAtOutOfRange ∨ e = Err.valuesAtErr := by
  cases ts' with
  | nil =>
    simp only [finalChecks, Except.error.injEq] at h
    exact Or.inl h.symm
  | cons t0 rest' =>
    simp only [finalChecks] at h
    split at h
    · simp only [Except.error.injEq] at h
      exact Or.inr h.symm
    · simp at h

/-- Under the propagator contract, a full run can only terminate through
the two exits, a Values::at failure, or the final out-of-range read -
never through the assertions. -/
theorem build_and_solve_err (cfg : Config) (env : Env) (ts0 : List ℚ) (e : Err)
    (hprop : PropContract env)
    (h : build_and_solve cfg env ts0 = .error e) :
    e = Err.exitEmptyInput ∨ e = Err.exitAllOutOfRange ∨ e = Err.valuesAtErr
      ∨ e = Err.vecAtOutOfRange := by
  unfold build_and_solve at h
  by_cases h0 : ts0 = []
  · rw [if_pos h0] at h
    simp only [Except.error.injEq] at h
    exact Or.inl h.symm
  · rw [if_neg h0] at h
    by_cases h1 : boundedTs env ts0 = []
    · rw [if_pos h1] at h
      simp only [Except.error.injEq] at h
      exact Or.inr (Or.inl h.symm)
    · rw [if_neg h1] at h
      cases hs : solveLoop cfg env (mapStates (boundedTs env ts0))
          (cfg.num_loop_relin + 1).toNat 0 (boundedTs env ts0) [] [] [] with
      | error e2 =>
        rw [hs] at h
        simp only [Except.error.injEq] at h
        rw [← h]
        exact Or.inr (Or.inr (Or.inl
          (solveLoop_err cfg env _ hprop _ _ _ _ _ _ _ hs)))
      | ok o =>
        rw [hs] at h
        obtain ⟨ts', vres, rounds⟩ := o
        rcases finalChecks_err cfg _ _ ts' vres rounds e h with h2 | h2
        · exact Or.inr (Or.inr (Or.inr h2))
        · exact Or.inr (Or.inr (Or.inl h2))

/-- A successful export: one row per timestamp in order, each taken from
the state stored for that timestamp. -/
theorem write_rows_ok (mapS : ℚ → ℕ) (values : Values) :
    ∀ (ts : List ℚ) (rows : List StateRow),
    write_rows mapS values ts = .ok rows →
    rows = ts.map (fun t => rowOf t (navD values (Key.X (mapS t))))
      ∧ ∀ t ∈ ts, (atNav values (Key.X (mapS t))).isSome = true := by
  intro ts
  induction ts with
  | nil =>
    intro rows h
    simp only [write_rows, Except.ok.injEq] at h
    exact ⟨by simp [← h], by simp⟩
  | cons t ts ih =>
    intro rows h
    simp only [write_rows] at h
    cases ha : atNav values (Key.X (mapS t)) with
    | none => simp [ha] at h
    | some st =>
      simp only [ha] at h
      cases hw : write_rows mapS values ts with
      | error e => rw [hw] at h; simp at h
      | ok rs =>
        rw [hw] at h
        simp only [Except.ok.injEq] at h
        obtain ⟨hrs, hall⟩ := ih rs hw
        refine ⟨?_, ?_⟩
        · rw [← h, hrs]
          simp [navD, ha]
        · intro t2 ht2
          rcases List.mem_cons.mp ht2 with h2 | h2
          · subst h2
            rw [ha]
            rfl
          · exact hall t2 h2

/-- Claim C1: the relinearization loop performs exactly
num_loop_relin + 1 build-solve cycles; the builder is called with the
initialize flag exactly on round 0 (calibration, gravity, time-offset and
navigation-state variables are seeded only then: a non-initializing build
adds no keys), and each round's optimized values are adopted as the
estimate the next round is built from (the RoundsSpec chaining). -/
theorem vicon_C1 (cfg : Config) (env : Env) (ts0 : List ℚ)
    (hn : 0 ≤ cfg.num_loop_relin) (hnd : ts0.Nodup)
    (hok : (build_and_solve cfg env ts0).isOk = true) :
    (resD (build_and_solve cfg env ts0)).rounds.length = cfg.num_loop_relin.toNat + 1
    ∧ RoundsSpec cfg env (mapStates (resD (build_and_solve cfg env ts0)).mapTs) 0
        (resD (build_and_solve cfg env ts0)).mapTs []
        (resD (build_and_solve cfg env ts0)).rounds
    ∧ (∀ j (hj : j < (resD (build_and_solve cfg env ts0)).rounds.length),
        (((resD (build_and_solve cfg env ts0)).rounds.get ⟨j, hj⟩).initFlag = true ↔ j = 0))
    ∧ (∀ rd ∈ (resD (build_and_solve cfg env ts0)).rounds, rd.initFlag = false →
        ∀ k, containsV rd.valuesBuilt k = true → containsV rd.valuesIn k = true) := by
  cases hres : build_and_solve cfg env ts0 with
  | error e => rw [hres] at hok; simp [Except.isOk, Except.toBool] at hok
  | ok r =>
    rw [show resD (Except.ok r) = r from rfl]
    obtain ⟨h0, hmap, h1, hne, hsl⟩ := build_and_solve_inv cfg env ts0 r hres
    obtain ⟨new, hnew, hlen, hspec⟩ := solveLoop_trace cfg env _ _ _ _ _ _ _ _ _ _ hsl
    have hrounds : r.rounds = new := by simpa using hnew
    rw [← hrounds] at hspec hlen
    refine ⟨by rw [hlen]; omega, hspec, ?_, ?_⟩
    · intro j hj
      rw [RoundsSpec_initFlag cfg env _ r.rounds 0 _ _ hspec j hj, beq_iff_eq]
      omega
    · intro rd hrd hflag k hk
      obtain ⟨hbp, _⟩ := RoundsSpec_mem cfg env _ r.rounds 0 _ _ hspec rd hrd
      rw [hflag] at hbp
      exact build_problem_keysF cfg env _ rd.tsIn rd.valuesIn
        ⟨rd.tsOut, rd.valuesBuilt, rd.graph⟩ hbp k hk

/-- Witness for C1 at a concrete two-timestamp run. -/
theorem vicon_C1_witness :
    ((0 : ℤ) ≤ cfgW.num_loop_relin ∧ ([0, 1] : List ℚ).Nodup
      ∧ (build_and_solve cfgW envW [0, 1]).isOk = true)
    ∧ ((resD (build_and_solve cfgW envW [0, 1])).rounds.length
          = cfgW.num_loop_relin.toNat + 1
      ∧ RoundsSpec cfgW envW (mapStates (resD (build_and_solve cfgW envW [0, 1])).mapTs) 0
          (resD (build_and_solve cfgW envW [0, 1])).mapTs []
          (resD (build_and_solve cfgW envW [0, 1])).rounds
      ∧ (∀ j (hj : j < (resD (build_and_solve cfgW envW [0, 1])).rounds.length),
          (((resD (build_and_solve cfgW envW [0, 1])).rounds.get ⟨j, hj⟩).initFlag = true
            ↔ j = 0))
      ∧ (∀ rd ∈ (resD (build_and_solve cfgW envW [0, 1])).rounds, rd.initFlag = false →
          ∀ k, containsV rd.valuesBuilt k = true → containsV rd.valuesIn k = true)) := by
  have h1 : (0 : ℤ) ≤ cfgW.num_loop_relin := by decide
  have h2 : ([0, 1] : List ℚ).Nodup := by decide
  have h3 : (build_and_solve cfgW envW [0, 1]).isOk = true := by
    simp +decide +arith [build_and_solve, solveLoop, build_problem, buildLoop, finalChecks,
    boundedTs, mapStates, preValues, preValuesCG, preGraph, currToff, viconChecks, poseOut,
    ovwr, keepB, stepValues, poseFactor, mkInitState, insertV, eraseV, lookupV, containsV,
    atVec1, atVec3, atRot, atNav, envW, cfgW, poseW, preW, qid, vzero, m3id, resD,
    Except.toOption, Option.getD]
  exact ⟨⟨h1, h2, h3⟩, vicon_C1 cfgW envW [0, 1] h1 h2 h3⟩

/-- Claim C2: every input timestamp without a bounding inertial reading is
removed before graph construction: the state-index map is built from the
filtered list only, the pruned timestamp appears in no round's timestamp
list, and every navigation-state key of every built factor belongs to a
surviving (hence bounded) timestamp different from it. -/
theorem vicon_C2 (cfg : Config) (env : Env) (ts0 : List ℚ) (hnd : ts0.Nodup)
    (hok : (build_and_solve cfg env ts0).isOk = true) :
    (resD (build_and_solve cfg env ts0)).mapTs
        = ts0.filter (fun t => env.hasBoundingImu t)
    ∧ ∀ t ∈ ts0, env.hasBoundingImu t = false →
        t ∉ (resD (build_and_solve cfg env ts0)).mapTs
        ∧ ∀ rd ∈ (resD (build_and_solve cfg env ts0)).rounds,
            t ∉ rd.tsIn ∧ t ∉ rd.tsOut
            ∧ ∀ f ∈ rd.graph, ∀ k ∈ stateKeysOf f,
                ∃ t', t' ∈ rd.tsIn ∧ t' ≠ t
                  ∧ k = Key.X (mapStates (resD (build_and_solve cfg env ts0)).mapTs t') := by
  cases hres : build_and_solve cfg env ts0 with
  | error e => rw [hres] at hok; simp [Except.isOk, Except.toBool] at hok
  | ok r =>
    rw [show resD (Except.ok r) = r from rfl]
    obtain ⟨h0, hmap, h1, hne, hsl⟩ := build_and_solve_inv cfg env ts0 r hres
    obtain ⟨new, hnew, hlen, hspec⟩ := solveLoop_trace cfg env _ _ _ _ _ _ _ _ _ _ hsl
    have hrounds : r.rounds = new := by simpa using hnew
    rw [← hrounds] at hspec
    have hmap' : r.mapTs = ts0.filter (fun t => env.hasBoundingImu t) := hmap
    refine ⟨hmap', ?_⟩
    intro t ht hb
    have htnm : t ∉ r.mapTs := by
      rw [hmap']
      intro hmem
      have := (List.mem_filter.mp hmem).2
      rw [hb] at this
      exact Bool.false_ne_true this
    refine ⟨htnm, ?_⟩
    intro rd hrd
    obtain ⟨hin, hout⟩ := RoundsSpec_sublist cfg env _ r.rounds 0 _ _ hspec rd hrd
    have htin : t ∉ rd.tsIn := fun hmem => htnm (hin.subset hmem)
    refine ⟨htin, fun hmem => htnm (hout.subset hmem), ?_⟩
    intro f hf k hk
    obtain ⟨hbp, _⟩ := RoundsSpec_mem cfg env _ r.rounds 0 _ _ hspec rd hrd
    obtain ⟨t', ht', hkt⟩ := build_problem_graphKeys cfg env _ rd.initFlag rd.tsIn
      rd.valuesIn ⟨rd.tsOut, rd.valuesBuilt, rd.graph⟩ hbp f hf k hk
    exact ⟨t', ht', fun he => htin (he ▸ ht'), hkt⟩

/-- Witness for C2 at a run with one unbounded timestamp. -/
theorem vicon_C2_witness :
    (([5, 0, 1] : List ℚ).Nodup
      ∧ (build_and_solve cfgW envC2 [5, 0, 1]).isOk = true)
    ∧ ((resD (build_and_solve cfgW envC2 [5, 0, 1])).mapTs
          = ([5, 0, 1] : List ℚ).filter (fun t => envC2.hasBoundingImu t)
      ∧ ∀ t ∈ ([5, 0, 1] : List ℚ), envC2.hasBoundingImu t = false →
          t ∉ (resD (build_and_solve cfgW envC2 [5, 0, 1])).mapTs
          ∧ ∀ rd ∈ (resD (build_and_solve cfgW envC2 [5, 0, 1])).rounds,
              t ∉ rd.tsIn ∧ t ∉ rd.tsOut
              ∧ ∀ f ∈ rd.graph, ∀ k ∈ stateKeysOf f,
                  ∃ t', t' ∈ rd.tsIn ∧ t' ≠ t
                    ∧ k = Key.X (mapStates
                        (resD (build_and_solve cfgW envC2 [5, 0, 1])).mapTs t')) := by
  have h2 : ([5, 0, 1] : List ℚ).Nodup := by decide
  have h3 : (build_and_solve cfgW envC2 [5, 0, 1]).isOk = true := by
    simp +decide +arith [build_and_solve, solveLoop, build_problem, buildLoop, finalChecks,
    boundedTs, mapStates, preValues, preValuesCG, preGraph, currToff, viconChecks, poseOut,
    ovwr, keepB, stepValues, poseFactor, mkInitState, insertV, eraseV, lookupV, containsV,
    atVec1, atVec3, atRot, atNav, envW, cfgW, poseW, preW, qid, vzero, m3id, resD,
    Except.toOption, Option.getD, envC2]
  exact ⟨⟨h2, h3⟩, vicon_C2 cfgW envC2 [5, 0, 1] h2 h3⟩

/-- Claim C3: during a build pass each timestamp is kept exactly when the
three interpolator queries at (corrected - 1 s), (corrected + 1 s) and
(corrected) all succeed and the resulting covariance passes the NaN /
inverse test (the viconChecks / keepB predicate); the surviving list is
exactly the filter of the input (only removals, never additions), a pruned
timestamp's navigation-state variable is erased from the value set, and the
pass still returns success (pruning is not surfaced as an error). -/
theorem vicon_C3 (cfg : Config) (env : Env) (mapS : ℚ → ℕ) (ins : Bool)
    (ts : List ℚ) (values : Values) (τ : ℚ)
    (hprop : PropContract env) (hros : ∀ k, env.rosOk k = true)
    (hinj : ∀ a b, a ∈ ts → b ∈ ts → mapS a = mapS b → a = b)
    (hT : cfg.estimate_toff_vicon_to_imu = true → ins = false →
      (atVec1 values (Key.T 0)).isSome = true)
    (hG : cfg.enforce_grav_mag = false → ins = false →
      (atVec3 values (Key.G 0)).isSome = true)
    (hnav : ins = false → ∀ t ∈ ts, (atNav values (Key.X (mapS t))).isSome = true)
    (hτ : currToff cfg (preValues cfg ins values) = some τ) :
    ∃ out, build_problem cfg env mapS ins ts values = .ok out
      ∧ out.ts = ts.filter (fun t => keepB env τ t)
      ∧ out.ts.Sublist ts
      ∧ (∀ t ∈ ts, (t ∈ out.ts ↔ keepB env τ t = true))
      ∧ (∀ t ∈ ts, keepB env τ t = false → lookupV out.values (Key.X (mapS t)) = none) := by
  obtain ⟨τ2, v', g', hτpre, _, _, _, hbp, _, _, _, _, hpruned⟩ :=
    build_problem_master cfg env mapS ins ts values hprop hros hinj hT hG hnav
  have hττ : τ2 = τ := by
    rw [hτpre] at hτ
    exact Option.some.inj hτ
  subst hττ
  refine ⟨⟨ts.filter (fun t => keepB env τ2 t), v', g'⟩, hbp, rfl,
    List.filter_sublist ts, ?_, hpruned⟩
  intro t ht
  constructor
  · intro hmem
    exact (List.mem_filter.mp hmem).2
  · intro hk
    exact List.mem_filter.mpr ⟨ht, hk⟩

/-- Witness for C3: a build pass over three timestamps where exactly the
middle one fails the covariance check and is pruned. -/
theorem vicon_C3_witness :
    (PropContract envC ∧ (∀ k, envC.rosOk k = true)
      ∧ currToff cfgW (preValues cfgW true []) = some 0)
    ∧ (∃ out, build_problem cfgW envC (mapStates [0, 5, 7]) true [0, 5, 7] [] = .ok out
      ∧ out.ts = ([0, 5, 7] : List ℚ).filter (fun t => keepB envC 0 t)
      ∧ out.ts.Sublist [0, 5, 7]
      ∧ (∀ t ∈ ([0, 5, 7] : List ℚ), (t ∈ out.ts ↔ keepB envC 0 t = true))
      ∧ (∀ t ∈ ([0, 5, 7] : List ℚ), keepB envC 0 t = false →
          lookupV out.values (Key.X (mapStates [0, 5, 7] t)) = none))
    ∧ keepB envC 0 5 = false ∧ keepB envC 0 0 = true ∧ keepB envC 0 7 = true := by
  have hprop : PropContract envC := fun t0 t1 bg ba => ⟨preW t0 t1, rfl, rfl⟩
  have hros : ∀ k, envC.rosOk k = true := fun _ => rfl
  have hτ : currToff cfgW (preValues cfgW true []) = some 0 := rfl
  refine ⟨⟨hprop, hros, hτ⟩, ?_, ?_, ?_, ?_⟩
  · exact vicon_C3 cfgW envC (mapStates [0, 5, 7]) true [0, 5, 7] [] 0 hprop hros
      (fun a b ha hb => mapStates_inj [0, 5, 7] a b ha hb)
      (fun hest _ => absurd hest (by decide))
      (fun _ hf => absurd hf (by simp))
      (fun hf => absurd hf (by simp))
      hτ
  · simp +decide +arith [keepB, viconChecks, poseOut, ovwr, envC, envW, poseW, qid, vzero]
  · simp +decide +arith [keepB, viconChecks, poseOut, ovwr, envC, envW, poseW, qid, vzero]
  · simp +decide +arith [keepB, viconChecks, poseOut, ovwr, envC, envW, poseW, qid, vzero]

/-- Claim C5 counterexample: a nonempty timestamp list fully bounded by
inertial data, but with no interpolator poses at all, is entirely pruned
during the build pass; the final debug read timestamp_cameras.at(0) then
fails (uncaught std::out_of_range), an abrupt termination that is neither
of the two guarded exits: they are not the only abrupt-termination paths. -/
theorem vicon_C5_counterexample :
    ([0] : List ℚ) ≠ [] ∧ envP.hasBoundingImu 0 = true
    ∧ boundedTs envP [0] ≠ []
    ∧ build_and_solve cfgW envP [0] = .error Err.vecAtOutOfRange
    ∧ Err.vecAtOutOfRange ≠ Err.exitEmptyInput
    ∧ Err.vecAtOutOfRange ≠ Err.exitAllOutOfRange := by
  refine ⟨by simp, rfl, ?_, ?_, by decide, by decide⟩
  · simp [boundedTs, envP, envW]
  · simp +decide +arith [build_and_solve, solveLoop, build_problem, buildLoop, finalChecks,
    boundedTs, mapStates, preValues, preValuesCG, preGraph, currToff, viconChecks, poseOut,
    ovwr, keepB, stepValues, poseFactor, mkInitState, insertV, eraseV, lookupV, containsV,
    atVec1, atVec3, atRot, atNav, envW, cfgW, poseW, preW, qid, vzero, m3id, resD,
    Except.toOption, Option.getD, envP]

/-- Claim C5 as amended: an empty input exits with the empty-input error; a
nonempty input with no bounded timestamp exits with the out-of-range error;
and, under the external contracts with a non-negative round count, the only
further abrupt-termination path is the final debug read after every
timestamp was pruned during the build passes. -/
theorem vicon_C5 (cfg : Config) (env : Env) (ts0 : List ℚ)
    (hprop : PropContract env) (hros : ∀ k, env.rosOk k = true)
    (hopt : OptTagContract env) (hnd : ts0.Nodup) (hn : 0 ≤ cfg.num_loop_relin) :
    (ts0 = [] → build_and_solve cfg env ts0 = .error Err.exitEmptyInput)
    ∧ (ts0 ≠ [] → boundedTs env ts0 = [] →
        build_and_solve cfg env ts0 = .error Err.exitAllOutOfRange)
    ∧ (∀ e, build_and_solve cfg env ts0 = .error e →
        e = Err.exitEmptyInput ∨ e = Err.exitAllOutOfRange
          ∨ e = Err.vecAtOutOfRange) := by
  refine ⟨?_, ?_, ?_⟩
  · intro h
    unfold build_and_solve
    rw [if_pos h]
  · intro h0 h1
    unfold build_and_solve
    rw [if_neg h0, if_pos h1]
  · intro e h
    by_cases h0 : ts0 = []
    · left
      unfold build_and_solve at h
      rw [if_pos h0] at h
      exact (Except.error.inj h).symm
    · by_cases h1 : boundedTs env ts0 = []
      · right; left
        unfold build_and_solve at h
        rw [if_neg h0, if_pos h1] at h
        exact (Except.error.inj h).symm
      · right; right
        obtain ⟨ts', vres', rounds', hsl, hsub, hRIfin, _⟩ :=
          solveLoop_ok cfg env (mapStates (boundedTs env ts0)) (boundedTs env ts0)
            hprop hros hopt (fun a b ha hb => mapStates_inj _ a b ha hb)
            (cfg.num_loop_relin + 1).toNat 0 (boundedTs env ts0) [] [] []
            (List.Sublist.refl _) (fun hi => absurd rfl hi)
        unfold build_and_solve at h
        rw [if_neg h0, if_neg h1] at h
        simp only [hsl] at h
        cases hts : ts' with
        | nil =>
          subst hts
          simp only [finalChecks, Except.error.injEq] at h
          exact h.symm
        | cons t0 rest' =>
          subst hts
          have hge : 1 ≤ (cfg.num_loop_relin + 1).toNat := by omega
          rw [finalChecks_ok cfg _ _ _ _ rounds' (by simp) (hRIfin hge)] at h
          simp at h

/-- Witness for C5's amended statement at a concrete well-behaved run. -/
theorem vicon_C5_witness :
    (PropContract envW ∧ (∀ k, envW.rosOk k = true) ∧ OptTagContract envW
      ∧ ([0, 1] : List ℚ).Nodup ∧ (0 : ℤ) ≤ cfgW.num_loop_relin)
    ∧ ((([0, 1] : List ℚ) = [] →
          build_and_solve cfgW envW [0, 1] = .error Err.exitEmptyInput)
      ∧ (([0, 1] : List ℚ) ≠ [] → boundedTs envW [0, 1] = [] →
          build_and_solve cfgW envW [0, 1] = .error Err.exitAllOutOfRange)
      ∧ (∀ e, build_and_solve cfgW envW [0, 1] = .error e →
          e = Err.exitEmptyInput ∨ e = Err.exitAllOutOfRange
            ∨ e = Err.vecAtOutOfRange)) := by
  have hprop : PropContract envW := fun t0 t1 bg ba => ⟨preW t0 t1, rfl, rfl⟩
  have hros : ∀ k, envW.rosOk k = true := fun _ => rfl
  have hopt : OptTagContract envW := fun g v k => rfl
  have hnd : ([0, 1] : List ℚ).Nodup := by decide
  have hn : (0 : ℤ) ≤ cfgW.num_loop_relin := by decide
  exact ⟨⟨hprop, hros, hopt, hnd, hn⟩, vicon_C5 cfgW envW [0, 1] hprop hros hopt hnd hn⟩

/-- Claim C6: the navigation-state key of the i-th surviving timestamp is
strictly increasing along the surviving list (which is a sublist of the
index list built before the rounds), and the same strict increase holds
along every round's timestamp lists: keys are assigned once from the
original ordering and never renumbered by pruning. -/
theorem vicon_C6 (cfg : Config) (env : Env) (ts0 : List ℚ)
    (hsort : ts0.Pairwise (· < ·))
    (hok : (build_and_solve cfg env ts0).isOk = true) :
    (resD (build_and_solve cfg env ts0)).ts.Sublist
        (resD (build_and_solve cfg env ts0)).mapTs
    ∧ (resD (build_and_solve cfg env ts0)).ts.Pairwise (· < ·)
    ∧ (resD (build_and_solve cfg env ts0)).ts.Pairwise (fun a b =>
        mapStates (resD (build_and_solve cfg env ts0)).mapTs a
          < mapStates (resD (build_and_solve cfg env ts0)).mapTs b)
    ∧ ∀ rd ∈ (resD (build_and_solve cfg env ts0)).rounds,
        rd.tsIn.Pairwise (fun a b =>
          mapStates (resD (build_and_solve cfg env ts0)).mapTs a
            < mapStates (resD (build_and_solve cfg env ts0)).mapTs b)
        ∧ rd.tsOut.Pairwise (fun a b =>
            mapStates (resD (build_and_solve cfg env ts0)).mapTs a
              < mapStates (resD (build_and_solve cfg env ts0)).mapTs b) := by
  cases hres : build_and_solve cfg env ts0 with
  | error e => rw [hres] at hok; simp [Except.isOk, Except.toBool] at hok
  | ok r =>
    rw [show resD (Except.ok r) = r from rfl]
    obtain ⟨h0, hmap, h1, hne, hsl⟩ := build_and_solve_inv cfg env ts0 r hres
    obtain ⟨new, hnew, hlen, hspec⟩ := solveLoop_trace cfg env _ _ _ _ _ _ _ _ _ _ hsl
    have hrounds : r.rounds = new := by simpa using hnew
    rw [← hrounds] at hspec
    have hmsort : r.mapTs.Pairwise (· < ·) := by
      rw [hmap]
      exact hsort.filter _
    have key_pw : ∀ l : List ℚ, l.Sublist r.mapTs →
        l.Pairwise (fun a b => mapStates r.mapTs a < mapStates r.mapTs b) := by
      intro l hs2
      refine List.Pairwise.imp_of_mem ?_ (hmsort.sublist hs2)
      intro a b ha hb hab
      exact mapStates_mono r.mapTs hmsort a b (hs2.subset ha) (hs2.subset hb) hab
    have hsubts : r.ts.Sublist r.mapTs := solveLoop_sublist cfg env _ _ _ _ _ _ _ _ _ _ hsl
    refine ⟨hsubts, hmsort.sublist hsubts, key_pw r.ts hsubts, ?_⟩
    intro rd hrd
    obtain ⟨hin, hout⟩ := RoundsSpec_sublist cfg env _ r.rounds 0 _ _ hspec rd hrd
    exact ⟨key_pw rd.tsIn hin, key_pw rd.tsOut hout⟩

/-- Witness for C6 at a concrete sorted run. -/
theorem vicon_C6_witness :
    (([0, 1] : List ℚ).Pairwise (· < ·)
      ∧ (build_and_solve cfgW envW [0, 1]).isOk = true)
    ∧ ((resD (build_and_solve cfgW envW [0, 1])).ts.Sublist
          (resD (build_and_solve cfgW envW [0, 1])).mapTs
      ∧ (resD (build_and_solve cfgW envW [0, 1])).ts.Pairwise (· < ·)
      ∧ (resD (build_and_solve cfgW envW [0, 1])).ts.Pairwise (fun a b =>
          mapStates (resD (build_and_solve cfgW envW [0, 1])).mapTs a
            < mapStates (resD (build_and_solve cfgW envW [0, 1])).mapTs b)
      ∧ ∀ rd ∈ (resD (build_and_solve cfgW envW [0, 1])).rounds,
          rd.tsIn.Pairwise (fun a b =>
            mapStates (resD (build_and_solve cfgW envW [0, 1])).mapTs a
              < mapStates (resD (build_and_solve cfgW envW [0, 1])).mapTs b)
          ∧ rd.tsOut.Pairwise (fun a b =>
              mapStates (resD (build_and_solve cfgW envW [0, 1])).mapTs a
                < mapStates (resD (build_and_solve cfgW envW [0, 1])).mapTs b)) := by
  have h1 : ([0, 1] : List ℚ).Pairwise (· < ·) := by norm_num
  have h2 : (build_and_solve cfgW envW [0, 1]).isOk = true := by
    simp +decide +arith [build_and_solve, solveLoop, build_problem, buildLoop, finalChecks,
    boundedTs, mapStates, preValues, preValuesCG, preGraph, currToff, viconChecks, poseOut,
    ovwr, keepB, stepValues, poseFactor, mkInitState, insertV, eraseV, lookupV, containsV,
    atVec1, atVec3, atRot, atNav, envW, cfgW, poseW, preW, qid, vzero, m3id, resD,
    Except.toOption, Option.getD]
  exact ⟨⟨h1, h2⟩, vicon_C6 cfgW envW [0, 1] h1 h2⟩

/-- Claim C7 as amended: when the time offset is being estimated, every
built graph contains exactly one time-offset prior, with sigma 0.02 s and
mean the current offset estimate at build time: the configured initial
estimate on the initializing round, the previous round's adopted optimum
afterwards; when disabled, no time-offset prior appears and the builder
leaves the T(0) binding untouched. -/
theorem vicon_C7 (cfg : Config) (env : Env) (ts0 : List ℚ)
    (hok : (build_and_solve cfg env ts0).isOk = true) :
    ∀ rd ∈ (resD (build_and_solve cfg env ts0)).rounds,
      (cfg.estimate_toff_vicon_to_imu = true →
        ∃ cur, rd.graph.filter isToffPrior
            = [Factor.priorToff (Key.T 0) cur (1 / 50)]
          ∧ (rd.initFlag = true → cur = cfg.init_toff_imu_to_vicon)
          ∧ (rd.initFlag = false → atVec1 rd.valuesIn (Key.T 0) = some cur))
      ∧ (cfg.estimate_toff_vicon_to_imu = false →
          rd.graph.filter isToffPrior = []
          ∧ containsV rd.valuesBuilt (Key.T 0) = containsV rd.valuesIn (Key.T 0)) := by
  cases hres : build_and_solve cfg env ts0 with
  | error e => rw [hres] at hok; simp [Except.isOk, Except.toBool] at hok
  | ok r =>
    rw [show resD (Except.ok r) = r from rfl]
    obtain ⟨h0, hmap, h1, hne, hsl⟩ := build_and_solve_inv cfg env ts0 r hres
    obtain ⟨new, hnew, hlen, hspec⟩ := solveLoop_trace cfg env _ _ _ _ _ _ _ _ _ _ hsl
    have hrounds : r.rounds = new := by simpa using hnew
    rw [← hrounds] at hspec
    intro rd hrd
    obtain ⟨hbp, _⟩ := RoundsSpec_mem cfg env _ r.rounds 0 _ _ hspec rd hrd
    obtain ⟨τ, hτpre, hbl⟩ := build_problem_inv cfg env _ rd.initFlag rd.tsIn
      rd.valuesIn ⟨rd.tsOut, rd.valuesBuilt, rd.graph⟩ hbp
    obtain ⟨gadd, hg, hcl⟩ := buildLoop_graphAdd cfg env _ rd.initFlag rd.tsIn []
      (preValues cfg rd.initFlag rd.valuesIn) (preGraph cfg env τ) 0 _ _ _ hbl
    have hnil : gadd.filter isToffPrior = [] := by
      rw [List.filter_eq_nil_iff]
      intro f hf
      rw [(hcl f hf).1]
      simp
    have hfil : rd.graph.filter isToffPrior
        = (preGraph cfg env τ).filter isToffPrior := by
      have hgr : rd.graph = preGraph cfg env τ ++ gadd := hg
      rw [hgr, List.filter_append, hnil, List.append_nil]
    constructor
    · intro hest
      refine ⟨τ, ?_, ?_, ?_⟩
      · rw [hfil, preGraph_filter, if_pos hest]
      · intro hflag
        rw [hflag, currToff_preValues_true cfg rd.valuesIn hest] at hτpre
        exact (Option.some.inj hτpre).symm
      · intro hflag
        rw [hflag, preValues_false] at hτpre
        unfold currToff at hτpre
        rw [if_pos hest] at hτpre
        exact hτpre
    · intro hef
      refine ⟨by rw [hfil, preGraph_filter, if_neg (by rw [hef]; exact Bool.false_ne_true)], ?_⟩
      unfold containsV
      rw [buildLoop_nonX cfg env _ rd.initFlag rd.tsIn []
        (preValues cfg rd.initFlag rd.valuesIn) (preGraph cfg env τ) 0 _ _ _ hbl
        (Key.T 0) (by simp),
        lookupV_preValues_T cfg rd.initFlag rd.valuesIn hef]

/-- Witness for C7's amended statement on the two-round offset run. -/
theorem vicon_C7_witness :
    (build_and_solve cfgT envT [0, 1]).isOk = true
    ∧ (∀ rd ∈ (resD (build_and_solve cfgT envT [0, 1])).rounds,
      (cfgT.estimate_toff_vicon_to_imu = true →
        ∃ cur, rd.graph.filter isToffPrior
            = [Factor.priorToff (Key.T 0) cur (1 / 50)]
          ∧ (rd.initFlag = true → cur = cfgT.init_toff_imu_to_vicon)
          ∧ (rd.initFlag = false → atVec1 rd.valuesIn (Key.T 0) = some cur))
      ∧ (cfgT.estimate_toff_vicon_to_imu = false →
          rd.graph.filter isToffPrior = []
          ∧ containsV rd.valuesBuilt (Key.T 0) = containsV rd.valuesIn (Key.T 0))) := by
  have hok : (build_and_solve cfgT envT [0, 1]).isOk = true := by
    simp +decide +arith [build_and_solve, solveLoop, build_problem, buildLoop, finalChecks,
    boundedTs, mapStates, preValues, preValuesCG, preGraph, currToff, viconChecks, poseOut,
    ovwr, keepB, stepValues, poseFactor, mkInitState, insertV, eraseV, lookupV, containsV,
    atVec1, atVec3, atRot, atNav, envW, cfgW, poseW, preW, qid, vzero, m3id, resD,
    Except.toOption, Option.getD, envT, cfgT]
  exact ⟨hok, vicon_C7 cfgT envT [0, 1] hok⟩

/-- Claim C8: under the propagator contract (success and exact duration
t1 - t0, with the measurement requested at the previous state's current
bias estimate as buildLoop does), the two assertion-failure branches are
unreachable: no run terminates through them. -/
theorem vicon_C8 (cfg : Config) (env : Env) (ts0 : List ℚ)
    (hprop : PropContract env) :
    build_and_solve cfg env ts0 ≠ .error Err.assertHasImu
    ∧ build_and_solve cfg env ts0 ≠ .error Err.assertDT := by
  constructor <;> intro h <;>
    rcases build_and_solve_err cfg env ts0 _ hprop h with h2 | h2 | h2 | h2 <;>
    simp at h2

/-- Witness for C8 at a concrete contract-honouring environment. -/
theorem vicon_C8_witness :
    PropContract envW
    ∧ (build_and_solve cfgW envW [0, 1] ≠ .error Err.assertHasImu
      ∧ build_and_solve cfgW envW [0, 1] ≠ .error Err.assertDT) := by
  have hprop : PropContract envW := fun t0 t1 bg ba => ⟨preW t0 t1, rfl, rfl⟩
  exact ⟨hprop, vicon_C8 cfgW envW [0, 1] hprop⟩

/-- Claim C9: the exported state table has exactly one row per surviving
timestamp, in the surviving (ascending) order, each row holding the integer
nanosecond timestamp floor(1e9 t), position, scalar-first quaternion
(q(3) first), velocity, gyro bias and accel bias of the state stored for
that timestamp in the final optimized values. -/
theorem vicon_C9 (cfg : Config) (env : Env) (ts0 : List ℚ) (rows : List StateRow)
    (hsort : ts0.Pairwise (· < ·))
    (hok : (build_and_solve cfg env ts0).isOk = true)
    (hrows : write_rows (mapStates (resD (build_and_solve cfg env ts0)).mapTs)
        (resD (build_and_solve cfg env ts0)).valuesRes
        (resD (build_and_solve cfg env ts0)).ts = .ok rows) :
    rows = (resD (build_and_solve cfg env ts0)).ts.map (fun t =>
        rowOf t (navD (resD (build_and_solve cfg env ts0)).valuesRes
          (Key.X (mapStates (resD (build_and_solve cfg env ts0)).mapTs t))))
    ∧ rows.length = (resD (build_and_solve cfg env ts0)).ts.length
    ∧ (resD (build_and_solve cfg env ts0)).ts.Pairwise (· < ·)
    ∧ (∀ t ∈ (resD (build_and_solve cfg env ts0)).ts,
        (atNav (resD (build_and_solve cfg env ts0)).valuesRes
          (Key.X (mapStates (resD (build_and_solve cfg env ts0)).mapTs t))).isSome
            = true) := by
  cases hres : build_and_solve cfg env ts0 with
  | error e => rw [hres] at hok; simp [Except.isOk, Except.toBool] at hok
  | ok r =>
    rw [hres, show resD (Except.ok r) = r from rfl] at hrows
    rw [show resD (Except.ok r) = r from rfl]
    obtain ⟨h0, hmap, h1, hne, hsl⟩ := build_and_solve_inv cfg env ts0 r hres
    obtain ⟨hmapv, hall⟩ := write_rows_ok (mapStates r.mapTs) r.valuesRes r.ts rows hrows
    have hmsort : r.mapTs.Pairwise (· < ·) := by
      rw [hmap]
      exact hsort.filter _
    have hsubts : r.ts.Sublist r.mapTs := solveLoop_sublist cfg env _ _ _ _ _ _ _ _ _ _ hsl
    exact ⟨hmapv, by rw [hmapv, List.length_map], hmsort.sublist hsubts, hall⟩

/-- Witness for C9 at the concrete run. -/
theorem vicon_C9_witness :
    (([0, 1] : List ℚ).Pairwise (· < ·)
      ∧ (build_and_solve cfgW envW [0, 1]).isOk = true
      ∧ write_rows (mapStates (resD (build_and_solve cfgW envW [0, 1])).mapTs)
          (resD (build_and_solve cfgW envW [0, 1])).valuesRes
          (resD (build_and_solve cfgW envW [0, 1])).ts
        = .ok ((resD (build_and_solve cfgW envW [0, 1])).ts.map (fun t =>
            rowOf t (navD (resD (build_and_solve cfgW envW [0, 1])).valuesRes
              (Key.X (mapStates (resD (build_and_solve cfgW envW [0, 1])).mapTs t))))))
    ∧ ((resD (build_and_solve cfgW envW [0, 1])).ts.map (fun t =>
          rowOf t (navD (resD (build_and_solve cfgW envW [0, 1])).valuesRes
            (Key.X (mapStates (resD (build_and_solve cfgW envW [0, 1])).mapTs t))))
        = (resD (build_and_solve cfgW envW [0, 1])).ts.map (fun t =>
            rowOf t (navD (resD (build_and_solve cfgW envW [0, 1])).valuesRes
              (Key.X (mapStates (resD (build_and_solve cfgW envW [0, 1])).mapTs t))))
      ∧ ((resD (build_and_solve cfgW envW [0, 1])).ts.map (fun t =>
          rowOf t (navD (resD (build_and_solve cfgW envW [0, 1])).valuesRes
            (Key.X (mapStates (resD (build_and_solve cfgW envW [0, 1])).mapTs t))))).length
          = (resD (build_and_solve cfgW envW [0, 1])).ts.length
      ∧ (resD (build_and_solve cfgW envW [0, 1])).ts.Pairwise (· < ·)
      ∧ (∀ t ∈ (resD (build_and_solve cfgW envW [0, 1])).ts,
          (atNav (resD (build_and_solve cfgW envW [0, 1])).valuesRes
            (Key.X (mapStates (resD (build_and_solve cfgW envW [0, 1])).mapTs t))).isSome
              = true)) := by
  have h1 : ([0, 1] : List ℚ).Pairwise (· < ·) := by norm_num
  have h2 : (build_and_solve cfgW envW [0, 1]).isOk = true := by
    simp +decide +arith [build_and_solve, solveLoop, build_problem, buildLoop, finalChecks,
    boundedTs, mapStates, preValues, preValuesCG, preGraph, currToff, viconChecks, poseOut,
    ovwr, keepB, stepValues, poseFactor, mkInitState, insertV, eraseV, lookupV, containsV,
    atVec1, atVec3, atRot, atNav, envW, cfgW, poseW, preW, qid, vzero, m3id, resD,
    Except.toOption, Option.getD]
  have h3 : write_rows (mapStates (resD (build_and_solve cfgW envW [0, 1])).mapTs)
      (resD (build_and_solve cfgW envW [0, 1])).valuesRes
      (resD (build_and_solve cfgW envW [0, 1])).ts
      = .ok ((resD (build_and_solve cfgW envW [0, 1])).ts.map (fun t =>
          rowOf t (navD (resD (build_and_solve cfgW envW [0, 1])).valuesRes
            (Key.X (mapStates (resD (build_and_solve cfgW envW [0, 1])).mapTs t))))) := by
    simp +decide +arith [build_and_solve, solveLoop, build_problem, buildLoop, finalChecks,
    boundedTs, mapStates, preValues, preValuesCG, preGraph, currToff, viconChecks, poseOut,
    ovwr, keepB, stepValues, poseFactor, mkInitState, insertV, eraseV, lookupV, containsV,
    atVec1, atVec3, atRot, atNav, envW, cfgW, poseW, preW, qid, vzero, m3id, resD,
    Except.toOption, Option.getD, write_rows, rowOf, navD]
  exact ⟨⟨h1, h2, h3⟩, vicon_C9 cfgW envW [0, 1] _ h1 h2 h3⟩

/-- Claim C10: of the three interpolator queries made for a timestamp, only
the last one (at the corrected time itself) determines the pose and
covariance used downstream: the three calls write the same output
variables, so the ±1-second results are overwritten and act only as
availability gates; the pose factor's measurement and the initial
navigation-state value are derived from the pose interpolated at the
corrected time, whatever the first two queries returned. -/
theorem vicon_C10 (cfg : Config) (env : Env) (mapS : ℚ → ℕ) (values : Values)
    (graph : List Factor) (n : ℕ) (t τ : ℚ) (m1 m2 m : PoseMeas)
    (hros : env.rosOk n = true)
    (htoff : currToff cfg values = some τ)
    (h1 : env.getPose (t + τ - 1) = some m1)
    (h2 : env.getPose (t + τ + 1) = some m2)
    (h3 : env.getPose (t + τ) = some m)
    (hcov : env.covBad m.R_vicon = false)
    (hplain : cfg.estimate_toff_vicon_to_imu = false) :
    poseOut (some m1) (some m2) (some m) = some m ∧
    viconChecks env (t + τ) = some m ∧
    buildLoop cfg env mapS true [] [t] values graph n =
      .ok ([t], insertV values (Key.X (mapS t)) (Val.nav (mkInitState cfg env m)),
        graph ++ [Factor.viconPose (Key.X (mapS t)) (Key.C 0) (Key.C 1)
          m.R_vicon m.q_VtoB m.p_BinV]) := by
  have hvc : viconChecks env (t + τ) = some m := by
    simp [viconChecks, poseOut, ovwr, h1, h2, h3, hcov]
  refine ⟨by simp [poseOut, ovwr], hvc, ?_⟩
  simp [buildLoop, hros, htoff, hvc, stepValues, poseFactor, hplain]

/-- Witness for C10 at a concrete input. -/
theorem vicon_C10_witness :
    (envW.rosOk 0 = true ∧ currToff cfgW [] = some 0 ∧
      envW.getPose (0 + 0 - 1) = some poseW ∧ envW.getPose (0 + 0 + 1) = some poseW ∧
      envW.getPose (0 + 0) = some poseW ∧ envW.covBad poseW.R_vicon = false ∧
      cfgW.estimate_toff_vicon_to_imu = false) ∧
    (poseOut (some poseW) (some poseW) (some poseW) = some poseW ∧
      viconChecks envW (0 + 0) = some poseW ∧
      buildLoop cfgW envW (mapStates [0]) true [] [0] [] [] 0 =
        .ok ([0], insertV [] (Key.X (mapStates [0] 0)) (Val.nav (mkInitState cfgW envW poseW)),
          [] ++ [Factor.viconPose (Key.X (mapStates [0] 0)) (Key.C 0) (Key.C 1)
            poseW.R_vicon poseW.q_VtoB poseW.p_BinV])) :=
  ⟨⟨rfl, rfl, rfl, rfl, rfl, rfl, rfl⟩,
    vicon_C10 cfgW envW (mapStates [0]) [] [] 0 0 0 poseW poseW poseW
      rfl rfl rfl rfl rfl rfl rfl⟩

/-- Claim C4 counterexample: with a propagator whose preintegration
covariance always fails the NaN test, the run does not terminate fatally
and the inertial factor for the pair is still added to the graph: the
source only logs at lines 377-381 and keeps going. -/
theorem vicon_C4_counterexample :
    envB.preintCovBad (preW 0 1).P_meas = true ∧
    (build_and_solve cfgW envB [0, 1]).isOk = true ∧
    (∀ rd ∈ (resD (build_and_solve cfgW envB [0, 1])).rounds,
      Factor.imuCPI (Key.X 0) (Key.X 1) (Key.G 0) (preW 0 1) ∈ rd.graph) := by
  refine ⟨rfl, ?_, ?_⟩ <;>
  simp +decide +arith [build_and_solve, solveLoop, build_problem, buildLoop, finalChecks,
    boundedTs, mapStates, preValues, preValuesCG, preGraph, currToff, viconChecks, poseOut,
    ovwr, keepB, stepValues, poseFactor, mkInitState, insertV, eraseV, lookupV, containsV,
    atVec1, atVec3, atRot, atNav, envW, envB, cfgW, poseW, preW, qid, vzero, m3id, resD]

/-- Claim C4 as amended: the NaN / inverse test on the preintegrated
covariance is log-only; it has no effect on the run, which continues and
still adds the inertial factor, whatever the test returns. -/
theorem vicon_C4 : ∀ b : CovM → Bool,
    build_and_solve cfgW { envW with preintCovBad := b } [0, 1]
      = build_and_solve cfgW envW [0, 1] ∧
    (build_and_solve cfgW { envW with preintCovBad := b } [0, 1]).isOk = true ∧
    (∀ rd ∈ (resD (build_and_solve cfgW { envW with preintCovBad := b } [0, 1])).rounds,
      Factor.imuCPI (Key.X 0) (Key.X 1) (Key.G 0) (preW 0 1) ∈ rd.graph) := by
  intro b
  refine ⟨rfl, ?_, ?_⟩ <;>
  simp +decide +arith [build_and_solve, solveLoop, build_problem, buildLoop, finalChecks,
    boundedTs, mapStates, preValues, preValuesCG, preGraph, currToff, viconChecks, poseOut,
    ovwr, keepB, stepValues, poseFactor, mkInitState, insertV, eraseV, lookupV, containsV,
    atVec1, atVec3, atRot, atNav, envW, cfgW, poseW, preW, qid, vzero, m3id, resD]

/-- Claim C7 counterexample: with one extra relinearization round and an
optimizer that moves the time-offset estimate to 42, the second built graph
contains a time-offset prior whose mean is 42, the previous round's
optimized estimate, not the initial estimate 0: the prior's mean is read
from the current value of T(0) at build time (line 275), so the claim that
every built graph anchors the offset to the initial estimate is false. -/
theorem vicon_C7_counterexample :
    cfgT.init_toff_imu_to_vicon = 0 ∧
    cfgT.estimate_toff_vicon_to_imu = true ∧
    (build_and_solve cfgT envT [0, 1]).isOk = true ∧
    ((resD (build_and_solve cfgT envT [0, 1])).rounds.map
        (fun rd => rd.graph.filter isToffPrior))
      = [[Factor.priorToff (Key.T 0) 0 (1 / 50)],
         [Factor.priorToff (Key.T 0) 42 (1 / 50)]] ∧
    (42 : ℚ) ≠ 0 := by
  refine ⟨rfl, rfl, ?_, ?_, by norm_num⟩ <;>
  simp +decide +arith [build_and_solve, solveLoop, build_problem, buildLoop, finalChecks,
    boundedTs, mapStates, preValues, preValuesCG, preGraph, currToff, viconChecks, poseOut,
    ovwr, keepB, stepValues, poseFactor, mkInitState, insertV, eraseV, lookupV, containsV,
    atVec1, atVec3, atRot, atNav, envW, envT, cfgT, poseW, preW, qid, vzero, m3id, resD,
    isToffPrior, Except.toOption, Option.getD]

end Vicon2gt
